import Mathlib

/-!
Verification of the `schedule-each` request scheduler (src/scheduler.ts).

The TypeScript class `RequestScheduler` persists batches of HTTP requests
("jobs") in two SQLite tables (`jobs`, `requests`) held in durable storage,
and drains them one request at a time, rate-limited, with crash recovery via
a durable alarm.  We embed the durable storage as a `Store` (lists of rows
plus the auto-increment counter and the alarm slot), the in-memory instance
state as `EngineState`, and each method of the class as a Lean function on
those states.  Outbound HTTP (`fetch`) is an oracle parameter; wall-clock
time (`Date.now()`) is a clock parameter.  JavaScript truthiness of the
decoded response payload is carried by an explicit `truthy` flag.
-/

namespace ScheduleEach

/-- Status column of the `jobs` table: `'processing'` or `'complete'`. -/
inductive JobState where
  | processing
  | complete
deriving DecidableEq, Repr

/-- A row of the `jobs` table (scheduler.ts lines 81-88). -/
structure JobRow where
  jobId : String
  startedAt : Int
  jstatus : JobState
  rateLimit : Int
  rateUnit : String
  lastProcessedIndex : Int
deriving DecidableEq, Repr

/-- A row of the `requests` table (scheduler.ts lines 96-108).  `id` is the
auto-increment primary key; `status`, `responseData`, `error`, `processedAt`
are the outcome columns, all NULL until the request is attempted. -/
structure RequestRow where
  id : Nat
  jobId : String
  url : String
  method : String
  headers : Option String
  body : Option String
  status : Option Int
  responseData : Option String
  error : Option String
  processedAt : Option Int
deriving DecidableEq, Repr

/-- The durable storage of one engine instance: the two SQLite tables, the
auto-increment counter for `requests.id`, and the one-shot alarm slot. -/
structure Store where
  jobs : List JobRow
  requests : List RequestRow
  nextId : Nat
  alarm : Option Int
deriving DecidableEq, Repr

/-- In-memory instance state: the single-flight `processing` flag together
with the durable store.  (`currentJobId` and `lastCheckpoint` are written by
the source but never read, so they are not modelled.) -/
structure EngineState where
  store : Store
  processing : Bool
deriving DecidableEq, Repr

/-- An entry of the `requests` argument of `schedule` (interface
`RequestConfig`, scheduler.ts lines 10-15).  `headers`/`body` are kept in
their serialized form, as the insert stores `JSON.stringify` of them. -/
structure RequestConfig where
  url : String
  method : String
  headers : Option String
  body : Option String
deriving DecidableEq, Repr

/-- The `options` argument of `schedule` (interface `RateLimitOptions`).
The unit is kept as a string because the source validates it dynamically. -/
structure RateLimitOptions where
  rateLimit : Int
  unit : String
deriving DecidableEq, Repr

/-- Default options of `schedule` (scheduler.ts line 124). -/
def defaultOptions : RateLimitOptions := ⟨5000, "hour"⟩

/-- Return value of `schedule`: `{ jobId, resuming? }`; the absent optional
field is modelled as `false`. -/
structure ScheduleResult where
  jobId : String
  resuming : Bool
deriving DecidableEq, Repr

/-- A JavaScript value as far as the scheduler observes it: its
`JSON.stringify` serialization and its truthiness. -/
structure JsVal where
  str : String
  truthy : Bool
deriving DecidableEq, Repr

/-- The parts of a `fetch` `Response` the scheduler reads: `ok`, `status`,
the `content-type` header, the result of `response.json()` (which may
throw), and the result of `response.text()`. -/
structure HttpResponse where
  ok : Bool
  status : Int
  contentType : Option String
  jsonResult : Except String JsVal
  textBody : String
deriving Repr

/-- The network oracle: what `fetch` does for a given request row.
`Except.error` is a transport exception (rejected promise). -/
def HttpOracle : Type := RequestRow → Except String HttpResponse

/-- A request is pending while `status` and `error` are both NULL. -/
def isPending (r : RequestRow) : Bool := r.status.isNone && r.error.isNone

/-- SQL predicate of the pending-requests query (scheduler.ts line 340):
`jobId = ? AND status IS NULL AND error IS NULL`. -/
def pendingPred (jobId : String) (r : RequestRow) : Bool :=
  r.jobId == jobId && isPending r

/-- Ordering used by `ORDER BY id`. -/
def leId (a b : RequestRow) : Prop := a.id ≤ b.id

instance : DecidableRel leId := fun a b => Nat.decLe a.id b.id

instance : IsTotal RequestRow leId := ⟨fun a b => Nat.le_total a.id b.id⟩

instance : IsTrans RequestRow leId := ⟨fun _ _ _ => Nat.le_trans⟩

instance : IsRefl RequestRow leId := ⟨fun a => Nat.le_refl a.id⟩

/-- The pending-requests query (scheduler.ts lines 335-344):
`SELECT ... FROM requests WHERE jobId = ? AND status IS NULL AND error IS
NULL ORDER BY id`. -/
def pendingRequests (s : Store) (jobId : String) : List RequestRow :=
  List.insertionSort leId (s.requests.filter (pendingPred jobId))

/-- Ordering used by `ORDER BY startedAt` on the jobs table. -/
def leStarted (a b : JobRow) : Prop := a.startedAt ≤ b.startedAt

instance : DecidableRel leStarted := fun a b => Int.decLe a.startedAt b.startedAt

instance : IsTotal JobRow leStarted := ⟨fun a b => Int.le_total a.startedAt b.startedAt⟩

instance : IsTrans JobRow leStarted := ⟨fun _ _ _ => Int.le_trans⟩

/-- The next-job query (scheduler.ts lines 310-319): `SELECT * FROM jobs
WHERE status = 'processing' ORDER BY startedAt LIMIT 1`. -/
def nextQueuedJob (s : Store) : Option JobRow :=
  (List.insertionSort leStarted
    (s.jobs.filter (fun j => j.jstatus == JobState.processing))).head?

/-- Milliseconds in one rate unit (scheduler.ts lines 451-452). -/
def unitInMs (unit : String) : Int :=
  if unit = "hour" then 3600000 else if unit = "minute" then 60000 else 1000

/-- `calculateDelay` (scheduler.ts lines 450-454):
`Math.ceil(unitInMs / rateLimit)`. -/
def calculateDelay (rateLimit : Int) (unit : String) : Int :=
  ⌈(unitInMs unit : ℚ) / (rateLimit : ℚ)⌉

/-- Char-list version of `String.startsWith`, by structural recursion so
that concrete instances reduce. -/
def startsWithChars : List Char → List Char → Bool
  | [], _ => true
  | _ :: _, [] => false
  | a :: as, b :: bs => (a = b) && startsWithChars as bs

/-- Substring test over char lists (the semantics of JS
`String.prototype.includes`). -/
def hasSubChars (needle : List Char) : List Char → Bool
  | [] => needle.isEmpty
  | b :: bs => startsWithChars needle (b :: bs) || hasSubChars needle bs

/-- `contentType?.includes("application/json")` (scheduler.ts line 360). -/
def contentTypeIsJson : Option String → Bool
  | none => false
  | some ct => hasSubChars "application/json".toList ct.toList

/-- The fetch-and-decode part of the request loop body (scheduler.ts lines
351-365): on success the pair is (HTTP status, decoded payload); the decoded
payload is `none` exactly when the response is not ok (the `responseData`
variable stays `null`).  `Except.error` is the caught exception of the
`try` block (transport failure or a throwing `response.json()`). -/
def fetchOutcome (oracle : HttpOracle) (req : RequestRow) :
    Except String (Int × Option JsVal) :=
  match oracle req with
  | Except.error m => Except.error m
  | Except.ok resp =>
    if resp.ok then
      if contentTypeIsJson resp.contentType then
        match resp.jsonResult with
        | Except.error m => Except.error m
        | Except.ok v => Except.ok (resp.status, some v)
      else Except.ok (resp.status, some ⟨resp.textBody, resp.textBody ≠ ""⟩)
    else Except.ok (resp.status, none)

/-- What the success UPDATE stores in `responseData` (scheduler.ts line
378): `responseData ? JSON.stringify(responseData) : null` — a falsy
decoded payload is stored as NULL. -/
def storedData : Option JsVal → Option String
  | none => none
  | some v => if v.truthy then some v.str else none

/-- The outcome fields written for one request: the success UPDATE
(scheduler.ts lines 368-381) sets `status`, `responseData`, `processedAt`;
the failure UPDATE (lines 386-394) sets `error`, `processedAt`. -/
def resolvedRow (oracle : HttpOracle) (now : Int) (r : RequestRow) : RequestRow :=
  match fetchOutcome oracle r with
  | Except.ok (st, d) =>
      { r with status := some st, responseData := storedData d, processedAt := some now }
  | Except.error m => { r with error := some m, processedAt := some now }

/-- Point UPDATE `... WHERE id = ?` applied to the requests table: the rows
whose `id` matches are replaced by `f` applied to them. -/
def updateRequestById (s : Store) (rid : Nat) (f : RequestRow → RequestRow) : Store :=
  { s with requests := s.requests.map (fun r => if r.id = rid then f r else r) }

/-- `UPDATE jobs SET lastProcessedIndex = lastProcessedIndex + 1 WHERE
jobId = ?` (scheduler.ts lines 398-406). -/
def advanceProgress (s : Store) (jobId : String) : Store :=
  { s with jobs := s.jobs.map (fun j =>
      if j.jobId = jobId then { j with lastProcessedIndex := j.lastProcessedIndex + 1 } else j) }

/-- `UPDATE jobs SET status = 'complete' WHERE jobId = ?` (scheduler.ts
lines 416-424). -/
def completeJob (s : Store) (jobId : String) : Store :=
  { s with jobs := s.jobs.map (fun j =>
      if j.jobId = jobId then { j with jstatus := JobState.complete } else j) }

/-- One iteration of the per-request loop (scheduler.ts lines 346-413):
execute the fetch, write the outcome row, bump `lastProcessedIndex`, and arm
the alarm at `now + delay + 5000`.  (The trailing `setTimeout` suspension
does not change state.) -/
def processOne (oracle : HttpOracle) (now : Int) (jobId : String) (delay : Int)
    (s : Store) (req : RequestRow) : Store :=
  let s1 :=
    match fetchOutcome oracle req with
    | Except.ok (st, d) =>
        updateRequestById s req.id (fun r =>
          { r with status := some st, responseData := storedData d, processedAt := some now })
    | Except.error m =>
        updateRequestById s req.id (fun r =>
          { r with error := some m, processedAt := some now })
  let s2 := advanceProgress s1 jobId
  { s2 with alarm := some (now + delay + 5000) }

/-- The per-request loop over a fetched list of pending requests; `i` is the
global dispatch counter feeding the clock. -/
def drainRequests (oracle : HttpOracle) (clock : Nat → Int) (jobId : String)
    (delay : Int) : Store → List RequestRow → Nat → Store
  | s, [], _ => s
  | s, req :: rest, i =>
      drainRequests oracle clock jobId delay (processOne oracle (clock i) jobId delay s req) rest (i + 1)

/-- One full Draining cycle for one job (steps 2-4 of the loop): fetch its
pending requests, resolve each in ascending id order, then mark the job
complete. -/
def drainJob (oracle : HttpOracle) (clock : Nat → Int) (s : Store) (job : JobRow)
    (i : Nat) : Store :=
  let delay := calculateDelay job.rateLimit job.rateUnit
  completeJob (drainRequests oracle clock job.jobId delay s (pendingRequests s job.jobId) i)
    job.jobId

/-- The `while (true)` loop of `resumeProcessing` (scheduler.ts lines
302-425), with explicit fuel: each iteration drains the oldest processing
job; the loop body exits when no processing job remains. -/
def resumeLoop (oracle : HttpOracle) (clock : Nat → Int) :
    Nat → Store → Nat → Store
  | 0, s, _ => s
  | fuel + 1, s, i =>
    match nextQueuedJob s with
    | none => s
    | some job =>
        resumeLoop oracle clock fuel (drainJob oracle clock s job i)
          (i + (pendingRequests s job.jobId).length)

/-- `resumeProcessing` on the exception-free path (scheduler.ts lines
297-429): no-op when the single-flight flag is up; otherwise drain all
queued jobs, clear the alarm and drop the flag. -/
def resumeProcessing (oracle : HttpOracle) (clock : Nat → Int)
    (st : EngineState) : EngineState :=
  if st.processing then st
  else
    let fuel := st.store.jobs.countP (fun j => j.jstatus == JobState.processing)
    let s := resumeLoop oracle clock fuel st.store 0
    ⟨{ s with alarm := none }, false⟩

/-- Validation of `schedule`'s arguments in source order (scheduler.ts
lines 129-147), returning the thrown message.  A missing `url`/`method` is
the falsy empty string. -/
def validateSchedule (requests : List RequestConfig) (options : RateLimitOptions) :
    Option String :=
  if requests.isEmpty then some "Requests must be a non-empty array"
  else if requests.any (fun r => r.url = "" || r.method = "") then
    some "Each request must have at least a url and method"
  else if ¬ 0 < options.rateLimit then some "rateLimit must be a positive integer"
  else if ¬ options.unit ∈ ["hour", "minute", "second"] then
    some "unit must be one of: hour, minute, second"
  else none

/-- The job INSERT of `schedule` (scheduler.ts lines 163-184): status
`'processing'`, `lastProcessedIndex = -1`. -/
def insertJobRow (s : Store) (jobId : String) (now : Int)
    (options : RateLimitOptions) : Store :=
  { s with jobs := s.jobs ++
      [⟨jobId, now, JobState.processing, options.rateLimit, options.unit, -1⟩] }

/-- The per-request INSERT loop of `schedule` (scheduler.ts lines 187-206):
each row gets the next auto-increment id; outcome columns start NULL. -/
def insertRequestRows (s : Store) (jobId : String) : List RequestConfig → Store
  | [] => s
  | c :: rest =>
      insertRequestRows
        { s with
          requests := s.requests ++
            [⟨s.nextId, jobId, c.url, c.method, c.headers, c.body, none, none, none, none⟩],
          nextId := s.nextId + 1 }
        jobId rest

/-- `schedule` (scheduler.ts lines 121-220): validate, return
`{ resuming: true }` on an existing `jobId`, otherwise insert the job and
its requests transactionally and enter the Draining loop unless the
single-flight flag is already up.  `Except.error` is the thrown
validation message. -/
def schedule (oracle : HttpOracle) (clock : Nat → Int) (now : Int)
    (st : EngineState) (jobId : String) (requests : List RequestConfig)
    (options : RateLimitOptions) : Except String (EngineState × ScheduleResult) :=
  match validateSchedule requests options with
  | some m => Except.error m
  | none =>
    if st.store.jobs.any (fun j => j.jobId == jobId) then
      Except.ok (st, ⟨jobId, true⟩)
    else
      let s1 := insertRequestRows (insertJobRow st.store jobId now options) jobId requests
      let st1 : EngineState := ⟨s1, st.processing⟩
      let st2 := if st1.processing then st1 else resumeProcessing oracle clock st1
      Except.ok (st2, ⟨jobId, false⟩)

/-- `estimateCompletion` (scheduler.ts lines 437-448), over exact
rationals: `null` when nothing is completed, else
`now + remaining / (completed / elapsed)`. -/
def estimateCompletion (startedAt : Int) (total : Nat) (completed : Nat)
    (now : Int) : Option ℚ :=
  if completed = 0 then none
  else
    let elapsed : ℚ := (now : ℚ) - (startedAt : ℚ)
    let rate : ℚ := (completed : ℚ) / elapsed
    let remaining : ℚ := (total : ℚ) - (completed : ℚ)
    some ((now : ℚ) + remaining / rate)

/-- One entry of the `results` array returned for a complete job
(scheduler.ts lines 269-277).  `responseData` is passed through when the
stored text is truthy (non-empty), mirroring
`r.responseData ? JSON.parse(r.responseData) : undefined`. -/
structure ResultEntry where
  url : String
  method : String
  status : Option Int
  responseData : Option String
  error : Option String
  processedAt : Option Int
deriving DecidableEq, Repr

/-- Progress block of a processing job's status (scheduler.ts lines
282-293). -/
structure ProgressInfo where
  completed : Nat
  total : Nat
  startedAt : Int
  estimatedCompletion : Option ℚ
deriving DecidableEq, Repr

/-- Return shape of `status` (interface `JobStatus`). -/
inductive StatusReply where
  | not_found
  | processing (p : ProgressInfo)
  | complete (results : List ResultEntry)
deriving DecidableEq, Repr

/-- Row count of the status LEFT JOIN group (scheduler.ts lines 232-244):
with no matching request row the join still yields one NULL-extended row,
so `COUNT(*)` is 1, not 0. -/
def statusTotal (s : Store) (jobId : String) : Nat :=
  let n := (s.requests.filter (fun r => r.jobId == jobId)).length
  if n = 0 then 1 else n

/-- `COUNT(CASE WHEN r.status IS NOT NULL OR r.error IS NOT NULL THEN 1
END)` of the status query. -/
def statusCompleted (s : Store) (jobId : String) : Nat :=
  (s.requests.filter (fun r => r.jobId == jobId && !(isPending r))).length

/-- The per-request loop under fault injection: after `k` further requests
have been processed, the next storage step throws `msg` (an uncaught
exception of the Draining loop — the inner `try` only covers the fetch and
decode).  The error carries the store as of the throw.  When the list runs
out before the countdown does, no fault occurs. -/
def drainRequestsF (oracle : HttpOracle) (clock : Nat → Int) (jobId : String)
    (delay : Int) (msg : String) :
    Store → List RequestRow → Nat → Nat → Except (String × Store) (Store × Nat)
  | s, [], _, k => Except.ok (s, k)
  | s, _ :: _, _, 0 => Except.error (msg, s)
  | s, req :: rest, i, k + 1 =>
      drainRequestsF oracle clock jobId delay msg
        (processOne oracle (clock i) jobId delay s req) rest (i + 1) k

/-- The `while (true)` loop under fault injection, threading the fault
countdown across jobs. -/
def resumeLoopF (oracle : HttpOracle) (clock : Nat → Int) (msg : String) :
    Nat → Store → Nat → Nat → Except (String × Store) Store
  | 0, s, _, _ => Except.ok s
  | fuel + 1, s, i, k =>
    match nextQueuedJob s with
    | none => Except.ok s
    | some job =>
      match drainRequestsF oracle clock job.jobId
          (calculateDelay job.rateLimit job.rateUnit) msg s
          (pendingRequests s job.jobId) i k with
      | Except.error e => Except.error e
      | Except.ok (s1, k1) =>
          resumeLoopF oracle clock msg fuel (completeJob s1 job.jobId)
            (i + (pendingRequests s job.jobId).length) k1

/-- `resumeProcessing` with a fault injected after `faultAfter` processed
requests: the `catch` block (scheduler.ts lines 430-434) arms the alarm at
`catchTime + 5000` and rethrows; the `processing` flag, already `true`, is
not reset on this path. -/
def resumeProcessingF (oracle : HttpOracle) (clock : Nat → Int)
    (faultAfter : Nat) (msg : String) (catchTime : Int) (st : EngineState) :
    Except (String × EngineState) EngineState :=
  if st.processing then Except.ok st
  else
    let fuel := st.store.jobs.countP (fun j => j.jstatus == JobState.processing)
    match resumeLoopF oracle clock msg fuel st.store 0 faultAfter with
    | Except.ok s => Except.ok ⟨{ s with alarm := none }, false⟩
    | Except.error (m, s) =>
        Except.error (m, ⟨{ s with alarm := some (catchTime + 5000) }, true⟩)

/-- Structural well-formedness of the store, maintained by the schema:
request ids are strictly increasing in insertion order and below the
auto-increment counter (`id INTEGER PRIMARY KEY AUTOINCREMENT`), and job
ids are unique (`jobId TEXT PRIMARY KEY`). -/
def StoreWF (s : Store) : Prop :=
  List.Sorted (· < ·) (s.requests.map RequestRow.id)
  ∧ (∀ r ∈ s.requests, r.id < s.nextId)
  ∧ (s.jobs.map JobRow.jobId).Nodup

instance (s : Store) : Decidable (StoreWF s) := by
  unfold StoreWF; infer_instance

/-- Outcome invariant of request rows: `status` and `error` are never both
set. -/
def OutcomeInv (s : Store) : Prop :=
  ∀ r ∈ s.requests, r.status = none ∨ r.error = none

instance (s : Store) : Decidable (OutcomeInv s) := by
  unfold OutcomeInv; infer_instance

/-- Number of request rows of a job. -/
def totalCount (s : Store) (jobId : String) : Nat :=
  (s.requests.filter (fun r => r.jobId == jobId)).length

/-- Completion invariant: a job marked `complete` has every one of its
requests resolved (`statusCompleted` counts the resolved rows). -/
def CompleteInv (s : Store) : Prop :=
  ∀ j ∈ s.jobs, j.jstatus = JobState.complete →
    statusCompleted s j.jobId = totalCount s j.jobId

instance (s : Store) : Decidable (CompleteInv s) := by
  unfold CompleteInv; infer_instance

/-- How one job row may evolve under engine operations: the identity and
configuration columns are frozen, and `status` may only move
`processing → complete`, never back. -/
def jobEvol (a b : JobRow) : Prop :=
  b.jobId = a.jobId ∧ b.startedAt = a.startedAt ∧ b.rateLimit = a.rateLimit
  ∧ b.rateUnit = a.rateUnit
  ∧ (a.jstatus = JobState.complete → b.jstatus = JobState.complete)

/-- Row-by-row evolution of the jobs table. -/
def JobsEvolve (l l' : List JobRow) : Prop := List.Forall₂ jobEvol l l'

/-- How one request row may evolve under the Draining loop: an untouched
row stays identical; a pending row may additionally be resolved by the
recorded fetch outcome at some time `t`.  A resolved row is never
rewritten. -/
def reqEvol (oracle : HttpOracle) (r r' : RequestRow) : Prop :=
  r' = r ∨ (isPending r = true ∧ ∃ t, r' = resolvedRow oracle t r)

/-- Row-by-row evolution of the requests table under the Draining loop. -/
def ReqsEvolve (oracle : HttpOracle) (l l' : List RequestRow) : Prop :=
  List.Forall₂ (reqEvol oracle) l l'

/-- Exact effect of draining the request list with ids `ids`: those rows
are resolved (at some time each), every other row is untouched. -/
def drainRel (oracle : HttpOracle) (ids : List Nat) (r r' : RequestRow) : Prop :=
  if r.id ∈ ids then ∃ t, r' = resolvedRow oracle t r else r' = r

/-- The timestamp-free observable outcome of a request row: identity, job,
and the three outcome columns. -/
def outcomeProj (r : RequestRow) :
    Nat × String × Option Int × Option String × Option String :=
  (r.id, r.jobId, r.status, r.responseData, r.error)

/-- `status` (scheduler.ts lines 222-295): a pure read of the store. -/
def statusOf (s : Store) (now : Int) (jobId : String) : StatusReply :=
  match s.jobs.find? (fun j => j.jobId == jobId) with
  | none => StatusReply.not_found
  | some job =>
    if job.jstatus = JobState.complete then
      StatusReply.complete
        ((List.insertionSort leId (s.requests.filter (fun r => r.jobId == jobId))).map
          (fun r =>
            ⟨r.url, r.method, r.status,
              match r.responseData with
              | none => none
              | some d => if d = "" then none else some d,
              r.error, r.processedAt⟩))
    else
      StatusReply.processing
        ⟨statusCompleted s jobId, statusTotal s jobId, job.startedAt,
          estimateCompletion job.startedAt (statusTotal s jobId)
            (statusCompleted s jobId) now⟩



/-- The rows that the request-INSERT loop of `schedule` produces: one fresh
row per config, ids counting up from `base`. -/
def mkRows (jobId : String) : Nat → List RequestConfig → List RequestRow
  | _, [] => []
  | base, c :: rest =>
      ⟨base, jobId, c.url, c.method, c.headers, c.body, none, none, none, none⟩
        :: mkRows jobId (base + 1) rest

instance {e a : Type} [DecidableEq e] [DecidableEq a] : DecidableEq (Except e a) :=
  fun x y =>
    match x, y with
    | Except.ok v, Except.ok w =>
      if h : v = w then isTrue (by rw [h]) else
        isFalse (by intro hc; cases hc; exact h rfl)
    | Except.error v, Except.error w =>
      if h : v = w then isTrue (by rw [h]) else
        isFalse (by intro hc; cases hc; exact h rfl)
    | Except.ok _, Except.error _ => isFalse (by intro hc; cases hc)
    | Except.error _, Except.ok _ => isFalse (by intro hc; cases hc)

/-! ### Basic facts about resolved rows and evolution relations -/

theorem resolvedRow_id (oracle : HttpOracle) (t : Int) (r : RequestRow) :
    (resolvedRow oracle t r).id = r.id := by
  unfold resolvedRow
  cases h : fetchOutcome oracle r with
  | ok p => cases p; rfl
  | error m => rfl

theorem resolvedRow_jobId (oracle : HttpOracle) (t : Int) (r : RequestRow) :
    (resolvedRow oracle t r).jobId = r.jobId := by
  unfold resolvedRow
  cases h : fetchOutcome oracle r with
  | ok p => cases p; rfl
  | error m => rfl

theorem resolvedRow_not_pending (oracle : HttpOracle) (t : Int) (r : RequestRow) :
    isPending (resolvedRow oracle t r) = false := by
  unfold resolvedRow isPending
  cases h : fetchOutcome oracle r with
  | ok p =>
    cases p with
    | mk st d => simp
  | error m =>
    simp

theorem resolvedRow_outcome_of_pending (oracle : HttpOracle) (t : Int)
    (r : RequestRow) (hp : isPending r = true) :
    (resolvedRow oracle t r).status = none ∨ (resolvedRow oracle t r).error = none := by
  unfold isPending at hp
  simp only [Bool.and_eq_true, Option.isNone_iff_eq_none] at hp
  unfold resolvedRow
  cases h : fetchOutcome oracle r with
  | ok p =>
    cases p with
    | mk st d => right; exact hp.2
  | error m => left; exact hp.1

theorem outcomeProj_resolvedRow (oracle : HttpOracle) (t t' : Int) (r : RequestRow) :
    outcomeProj (resolvedRow oracle t r) = outcomeProj (resolvedRow oracle t' r) := by
  unfold resolvedRow outcomeProj
  cases h : fetchOutcome oracle r with
  | ok p => cases p; rfl
  | error m => rfl

theorem reqEvol_refl (oracle : HttpOracle) (r : RequestRow) : reqEvol oracle r r :=
  Or.inl rfl

theorem reqEvol_trans (oracle : HttpOracle) {r r' r'' : RequestRow}
    (h1 : reqEvol oracle r r') (h2 : reqEvol oracle r' r'') : reqEvol oracle r r'' := by
  rcases h1 with h1 | ⟨hp, t, ht⟩
  · exact h1 ▸ h2
  · rcases h2 with h2 | ⟨hp', _, _⟩
    · exact h2 ▸ Or.inr ⟨hp, t, ht⟩
    · rw [ht, resolvedRow_not_pending] at hp'
      exact absurd hp' (by simp)

theorem jobEvol_refl (j : JobRow) : jobEvol j j := ⟨rfl, rfl, rfl, rfl, fun h => h⟩

theorem jobEvol_trans {a b c : JobRow} (h1 : jobEvol a b) (h2 : jobEvol b c) :
    jobEvol a c := by
  obtain ⟨e1, e2, e3, e4, e5⟩ := h1
  obtain ⟨f1, f2, f3, f4, f5⟩ := h2
  exact ⟨f1.trans e1, f2.trans e2, f3.trans e3, f4.trans e4, fun h => f5 (e5 h)⟩

theorem forall2_trans_of {α : Type} {R S T : α → α → Prop}
    (hc : ∀ a b c, R a b → S b c → T a c) :
    ∀ {l1 l2 l3 : List α}, List.Forall₂ R l1 l2 → List.Forall₂ S l2 l3 →
      List.Forall₂ T l1 l3 := by
  intro l1 l2 l3 h1
  induction h1 generalizing l3 with
  | nil => intro h2; cases h2; exact List.Forall₂.nil
  | cons hab htl ih =>
    intro h2
    cases h2 with
    | cons hbc htl2 => exact List.Forall₂.cons (hc _ _ _ hab hbc) (ih htl2)

theorem forall2_mem_left {α : Type} {R : α → α → Prop} {l l' : List α} {a : α}
    (h : List.Forall₂ R l l') (ha : a ∈ l) : ∃ b ∈ l', R a b := by
  induction h with
  | nil => cases ha
  | cons hab htl ih =>
    rcases List.mem_cons.mp ha with rfl | ha'
    · exact ⟨_, List.mem_cons_self _ _, hab⟩
    · obtain ⟨b, hb, hab'⟩ := ih ha'
      exact ⟨b, List.mem_cons_of_mem _ hb, hab'⟩

theorem reqsEvolve_refl (oracle : HttpOracle) (l : List RequestRow) :
    ReqsEvolve oracle l l :=
  List.forall₂_same.mpr (fun r _ => reqEvol_refl oracle r)

theorem reqsEvolve_trans (oracle : HttpOracle) {l1 l2 l3 : List RequestRow}
    (h1 : ReqsEvolve oracle l1 l2) (h2 : ReqsEvolve oracle l2 l3) :
    ReqsEvolve oracle l1 l3 :=
  forall2_trans_of
    (fun (a b c : RequestRow) (hab : reqEvol oracle a b) (hbc : reqEvol oracle b c) =>
      reqEvol_trans oracle hab hbc) h1 h2

theorem jobsEvolve_refl (l : List JobRow) : JobsEvolve l l :=
  List.forall₂_same.mpr (fun j _ => jobEvol_refl j)

theorem jobsEvolve_trans {l1 l2 l3 : List JobRow}
    (h1 : JobsEvolve l1 l2) (h2 : JobsEvolve l2 l3) : JobsEvolve l1 l3 :=
  forall2_trans_of
    (fun (a b c : JobRow) (hab : jobEvol a b) (hbc : jobEvol b c) =>
      jobEvol_trans hab hbc) h1 h2

/-! ### Effect of one request-loop iteration on the tables -/

theorem processOne_requests (oracle : HttpOracle) (now : Int) (jobId : String)
    (delay : Int) (s : Store) (req : RequestRow) :
    (processOne oracle now jobId delay s req).requests
      = s.requests.map (fun r => if r.id = req.id then
          (match fetchOutcome oracle req with
           | Except.ok (st, d) =>
               { r with status := some st, responseData := storedData d,
                        processedAt := some now }
           | Except.error m => { r with error := some m, processedAt := some now })
          else r) := by
  unfold processOne advanceProgress updateRequestById
  cases h : fetchOutcome oracle req with
  | ok p => cases p; rfl
  | error m => rfl

theorem processOne_jobs (oracle : HttpOracle) (now : Int) (jobId : String)
    (delay : Int) (s : Store) (req : RequestRow) :
    (processOne oracle now jobId delay s req).jobs
      = s.jobs.map (fun j => if j.jobId = jobId then
          { j with lastProcessedIndex := j.lastProcessedIndex + 1 } else j) := by
  unfold processOne advanceProgress updateRequestById
  cases h : fetchOutcome oracle req with
  | ok p => cases p; rfl
  | error m => rfl

theorem processOne_nextId (oracle : HttpOracle) (now : Int) (jobId : String)
    (delay : Int) (s : Store) (req : RequestRow) :
    (processOne oracle now jobId delay s req).nextId = s.nextId := by
  unfold processOne advanceProgress updateRequestById
  cases h : fetchOutcome oracle req with
  | ok p => cases p; rfl
  | error m => rfl

theorem processOne_forall2 (oracle : HttpOracle) (now : Int) (jobId : String)
    (delay : Int) (s : Store) (req : RequestRow)
    (hids : (s.requests.map RequestRow.id).Nodup) (hmem : req ∈ s.requests) :
    List.Forall₂ (drainRel oracle [req.id]) s.requests
      (processOne oracle now jobId delay s req).requests := by
  rw [processOne_requests, List.forall₂_map_right_iff, List.forall₂_same]
  intro r hr
  unfold drainRel
  by_cases hid : r.id = req.id
  · have hreq : r = req := List.inj_on_of_nodup_map hids hr hmem hid
    subst hreq
    simp only [hid, List.mem_singleton, if_pos, if_true]
    refine ⟨now, ?_⟩
    unfold resolvedRow
    cases h : fetchOutcome oracle r with
    | ok p => cases p; simp
    | error m => simp
  · simp only [List.mem_singleton, hid, if_neg, if_false]

theorem processOne_ids (oracle : HttpOracle) (now : Int) (jobId : String)
    (delay : Int) (s : Store) (req : RequestRow) :
    (processOne oracle now jobId delay s req).requests.map RequestRow.id
      = s.requests.map RequestRow.id := by
  rw [processOne_requests, List.map_map]
  apply List.map_congr_left
  intro r _
  simp only [Function.comp_apply]
  by_cases h : r.id = req.id
  · simp only [h, if_pos]
    cases hf : fetchOutcome oracle req with
    | ok p => cases p; simp [h]
    | error m => simp [h]
  · simp [h]

theorem drainRel_compose (oracle : HttpOracle) {qid : Nat} {ids : List Nat}
    (hq : qid ∉ ids) (a b c : RequestRow)
    (h1 : drainRel oracle [qid] a b) (h2 : drainRel oracle ids b c) :
    drainRel oracle (qid :: ids) a c := by
  unfold drainRel at h1 h2 ⊢
  by_cases ha : a.id = qid
  · simp only [List.mem_singleton, ha, if_pos, if_true] at h1
    obtain ⟨t, rfl⟩ := h1
    have hbid : (resolvedRow oracle t a).id = a.id := resolvedRow_id oracle t a
    rw [hbid, ha] at h2
    rw [if_neg hq] at h2
    rw [h2]
    simp only [List.mem_cons, ha, true_or, if_pos, if_true]
    exact ⟨t, rfl⟩
  · simp only [List.mem_singleton, ha, if_neg, if_false] at h1
    rw [h1] at h2
    by_cases hin : a.id ∈ ids
    · rw [if_pos hin] at h2
      have : a.id ∈ qid :: ids := List.mem_cons_of_mem _ hin
      rw [if_pos this]
      exact h2
    · rw [if_neg hin] at h2
      have : a.id ∉ qid :: ids := by
        intro hc
        rcases List.mem_cons.mp hc with h | h
        · exact ha h
        · exact hin h
      rw [if_neg this]
      exact h2

theorem drainRequests_forall2 (oracle : HttpOracle) (clock : Nat → Int)
    (jobId : String) (delay : Int) :
    ∀ (Q : List RequestRow) (s : Store) (i : Nat),
      (s.requests.map RequestRow.id).Nodup →
      (∀ q ∈ Q, q ∈ s.requests) →
      (Q.map RequestRow.id).Nodup →
      List.Forall₂ (drainRel oracle (Q.map RequestRow.id)) s.requests
        (drainRequests oracle clock jobId delay s Q i).requests := by
  intro Q
  induction Q with
  | nil =>
    intro s i _ _ _
    simp only [drainRequests, List.map_nil]
    exact List.forall₂_same.mpr (fun r _ => by unfold drainRel; simp)
  | cons q Q' ih =>
    intro s i hids hQ hQids
    have hmem : q ∈ s.requests := hQ q (List.mem_cons_self q Q')
    have hnodups : q.id ∉ Q'.map RequestRow.id ∧ (Q'.map RequestRow.id).Nodup := by
      have h := hQids
      rw [List.map_cons, List.nodup_cons] at h
      exact h
    have hqnotin : q.id ∉ Q'.map RequestRow.id := hnodups.1
    have hQids' : (Q'.map RequestRow.id).Nodup := hnodups.2
    have h1 : List.Forall₂ (drainRel oracle [q.id]) s.requests
        (processOne oracle (clock i) jobId delay s q).requests :=
      processOne_forall2 oracle (clock i) jobId delay s q hids hmem
    have hidseq : (processOne oracle (clock i) jobId delay s q).requests.map RequestRow.id
        = s.requests.map RequestRow.id := processOne_ids oracle (clock i) jobId delay s q
    have hids1 : ((processOne oracle (clock i) jobId delay s q).requests.map
        RequestRow.id).Nodup := by rw [hidseq]; exact hids
    have hQmem1 : ∀ q' ∈ Q', q' ∈ (processOne oracle (clock i) jobId delay s q).requests := by
      intro q' hq'
      have hne : q'.id ≠ q.id := by
        intro hc
        exact hqnotin (hc ▸ List.mem_map_of_mem RequestRow.id hq')
      rw [processOne_requests]
      have := List.mem_map_of_mem (fun r => if r.id = q.id then
          (match fetchOutcome oracle q with
           | Except.ok (st, d) =>
               { r with status := some st, responseData := storedData d,
                        processedAt := some (clock i) }
           | Except.error m => { r with error := some m, processedAt := some (clock i) })
          else r) (hQ q' (List.mem_cons_of_mem q hq'))
      simpa [if_neg hne] using this
    have h2 := ih (processOne oracle (clock i) jobId delay s q) (i + 1) hids1 hQmem1 hQids'
    have hcomp := forall2_trans_of
      (fun (a b c : RequestRow) (hab : drainRel oracle [q.id] a b)
        (hbc : drainRel oracle (Q'.map RequestRow.id) b c) =>
        drainRel_compose oracle hqnotin a b c hab hbc) h1 h2
    simpa [drainRequests] using hcomp

/-! ### Consequences of the drain relation -/

theorem drainRel_id (oracle : HttpOracle) {ids : List Nat} {r r' : RequestRow}
    (h : drainRel oracle ids r r') : r'.id = r.id := by
  unfold drainRel at h
  by_cases hin : r.id ∈ ids
  · rw [if_pos hin] at h
    obtain ⟨t, rfl⟩ := h
    exact resolvedRow_id oracle t r
  · rw [if_neg hin] at h
    rw [h]

theorem drainRel_jobId (oracle : HttpOracle) {ids : List Nat} {r r' : RequestRow}
    (h : drainRel oracle ids r r') : r'.jobId = r.jobId := by
  unfold drainRel at h
  by_cases hin : r.id ∈ ids
  · rw [if_pos hin] at h
    obtain ⟨t, rfl⟩ := h
    exact resolvedRow_jobId oracle t r
  · rw [if_neg hin] at h
    rw [h]

theorem forall2_drainRel_ids (oracle : HttpOracle) {ids : List Nat}
    {l l' : List RequestRow}
    (h : List.Forall₂ (drainRel oracle ids) l l') :
    l'.map RequestRow.id = l.map RequestRow.id := by
  induction h with
  | nil => rfl
  | cons hab _ ih => simp [drainRel_id oracle hab, ih]

theorem forall2_drainRel_proj (oracle : HttpOracle) {ids : List Nat}
    {l l' : List RequestRow}
    (h : List.Forall₂ (drainRel oracle ids) l l') :
    l'.map outcomeProj = l.map (fun r =>
      if r.id ∈ ids then outcomeProj (resolvedRow oracle 0 r) else outcomeProj r) := by
  induction h with
  | nil => rfl
  | @cons a b l1 l2 hab htl ih =>
    have hstep : outcomeProj b =
        (if a.id ∈ ids then outcomeProj (resolvedRow oracle 0 a) else outcomeProj a) := by
      unfold drainRel at hab
      by_cases hin : a.id ∈ ids
      · rw [if_pos hin] at hab
        obtain ⟨t, rfl⟩ := hab
        rw [if_pos hin]
        exact outcomeProj_resolvedRow oracle t 0 a
      · rw [if_neg hin] at hab
        rw [if_neg hin, hab]
    simp only [List.map_cons, hstep, ih]

theorem forall2_drainRel_filter_pending (oracle : HttpOracle) (jobId : String)
    {ids : List Nat} {l l' : List RequestRow}
    (h : List.Forall₂ (drainRel oracle ids) l l') :
    l'.filter (pendingPred jobId)
      = l.filter (fun r => pendingPred jobId r && !(decide (r.id ∈ ids))) := by
  induction h with
  | nil => rfl
  | @cons a b l1 l2 hab htl ih =>
    unfold drainRel at hab
    by_cases hin : a.id ∈ ids
    · rw [if_pos hin] at hab
      obtain ⟨t, rfl⟩ := hab
      have hbp : pendingPred jobId (resolvedRow oracle t a) = false := by
        unfold pendingPred
        rw [resolvedRow_not_pending]
        simp
      have hap : (pendingPred jobId a && !(decide (a.id ∈ ids))) = false := by
        simp [hin]
      simp only [List.filter_cons, hbp, hap, Bool.false_eq_true, if_neg, if_false, ih]
    · rw [if_neg hin] at hab
      rw [hab]
      have hap : (pendingPred jobId a && !(decide (a.id ∈ ids)))
          = pendingPred jobId a := by simp [hin]
      simp only [List.filter_cons, hap, ih]

theorem forall2_countP_le {α : Type} {R : α → α → Prop} {l l' : List α}
    (h : List.Forall₂ R l l') (p q : α → Bool)
    (hpq : ∀ a b, R a b → p a = true → q b = true) :
    l.countP p ≤ l'.countP q := by
  induction h with
  | nil => exact Nat.le_refl 0
  | @cons a b l1 l2 hab htl ih =>
    by_cases hp : p a = true
    · have hq := hpq a b hab hp
      simp only [List.countP_cons, hp, hq, if_pos]
      omega
    · have hp' : p a = false := by simp at hp; exact hp
      simp only [List.countP_cons, hp']
      simp only [Bool.false_eq_true, if_neg, if_false]
      have : (if q b = true then 1 else 0) ≥ 0 := Nat.zero_le _
      omega

theorem forall2_countP_eq {α : Type} {R : α → α → Prop} {l l' : List α}
    (h : List.Forall₂ R l l') (p q : α → Bool)
    (hpq : ∀ a b, R a b → p a = q b) :
    l.countP p = l'.countP q := by
  induction h with
  | nil => rfl
  | @cons a b l1 l2 hab htl ih =>
    simp only [List.countP_cons, hpq a b hab, ih]

theorem countP_and_split {α : Type} (p q : α → Bool) (l : List α) :
    l.countP (fun a => p a && q a) + l.countP (fun a => p a && !(q a)) = l.countP p := by
  induction l with
  | nil => rfl
  | cons a l ih =>
    simp only [List.countP_cons]
    by_cases hp : p a = true
    · by_cases hq : q a = true
      · simp [hp, hq]; omega
      · have hq' : q a = false := by simp at hq; exact hq
        simp [hp, hq']; omega
    · have hp' : p a = false := by simp at hp; exact hp
      simp [hp']; omega

/-! ### The pending-requests query -/

theorem mem_pendingRequests (s : Store) (jobId : String) (r : RequestRow) :
    r ∈ pendingRequests s jobId ↔ r ∈ s.requests ∧ pendingPred jobId r = true := by
  unfold pendingRequests
  rw [List.mem_insertionSort, List.mem_filter]

theorem pendingRequests_sorted (s : Store) (jobId : String) :
    List.Sorted leId (pendingRequests s jobId) :=
  List.sorted_insertionSort leId _

theorem pendingRequests_eq_filter (s : Store) (jobId : String)
    (h : List.Sorted (· < ·) (s.requests.map RequestRow.id)) :
    pendingRequests s jobId = s.requests.filter (pendingPred jobId) := by
  unfold pendingRequests
  apply List.Sorted.insertionSort_eq
  have hrows : s.requests.Pairwise (fun a b : RequestRow => a.id < b.id) :=
    List.pairwise_map.mp h
  have hfil : (s.requests.filter (pendingPred jobId)).Pairwise
      (fun a b : RequestRow => a.id < b.id) :=
    hrows.sublist (List.filter_sublist s.requests)
  exact hfil.imp (fun hab => Nat.le_of_lt hab)

theorem pendingRequests_ids_nodup (s : Store) (jobId : String)
    (hids : (s.requests.map RequestRow.id).Nodup) :
    ((pendingRequests s jobId).map RequestRow.id).Nodup := by
  have hperm : (pendingRequests s jobId).Perm (s.requests.filter (pendingPred jobId)) :=
    List.perm_insertionSort leId _
  have hfil : ((s.requests.filter (pendingPred jobId)).map RequestRow.id).Nodup :=
    hids.sublist ((List.filter_sublist s.requests).map RequestRow.id)
  exact ((hperm.map RequestRow.id).nodup_iff).mpr hfil

theorem pendingRequests_sub (s : Store) (jobId : String) :
    ∀ q ∈ pendingRequests s jobId, q ∈ s.requests :=
  fun q hq => ((mem_pendingRequests s jobId q).mp hq).1

theorem pendingRequests_pend (s : Store) (jobId : String) :
    ∀ q ∈ pendingRequests s jobId, pendingPred jobId q = true :=
  fun q hq => ((mem_pendingRequests s jobId q).mp hq).2

/-! ### Structural effect of draining on the store -/

theorem completeJob_requests (s : Store) (jobId : String) :
    (completeJob s jobId).requests = s.requests := rfl

theorem completeJob_nextId (s : Store) (jobId : String) :
    (completeJob s jobId).nextId = s.nextId := rfl

theorem drainRequests_nextId (oracle : HttpOracle) (clock : Nat → Int)
    (jobId : String) (delay : Int) :
    ∀ (Q : List RequestRow) (s : Store) (i : Nat),
      (drainRequests oracle clock jobId delay s Q i).nextId = s.nextId := by
  intro Q
  induction Q with
  | nil => intro s i; rfl
  | cons q Q' ih =>
    intro s i
    simp only [drainRequests]
    rw [ih, processOne_nextId]

theorem drainJob_forall2 (oracle : HttpOracle) (clock : Nat → Int) (s : Store)
    (job : JobRow) (i : Nat) (hids : (s.requests.map RequestRow.id).Nodup) :
    List.Forall₂ (drainRel oracle ((pendingRequests s job.jobId).map RequestRow.id))
      s.requests (drainJob oracle clock s job i).requests := by
  unfold drainJob
  rw [completeJob_requests]
  exact drainRequests_forall2 oracle clock job.jobId
    (calculateDelay job.rateLimit job.rateUnit) (pendingRequests s job.jobId) s i
    hids (pendingRequests_sub s job.jobId) (pendingRequests_ids_nodup s job.jobId hids)

theorem drainJob_ids (oracle : HttpOracle) (clock : Nat → Int) (s : Store)
    (job : JobRow) (i : Nat) (hids : (s.requests.map RequestRow.id).Nodup) :
    (drainJob oracle clock s job i).requests.map RequestRow.id
      = s.requests.map RequestRow.id :=
  forall2_drainRel_ids oracle (drainJob_forall2 oracle clock s job i hids)

theorem drainJob_nextId (oracle : HttpOracle) (clock : Nat → Int) (s : Store)
    (job : JobRow) (i : Nat) :
    (drainJob oracle clock s job i).nextId = s.nextId := by
  unfold drainJob
  rw [completeJob_nextId, drainRequests_nextId]

theorem processOne_jobs_evolve (oracle : HttpOracle) (now : Int) (jobId : String)
    (delay : Int) (s : Store) (req : RequestRow) :
    JobsEvolve s.jobs (processOne oracle now jobId delay s req).jobs := by
  rw [JobsEvolve, processOne_jobs, List.forall₂_map_right_iff, List.forall₂_same]
  intro j _
  by_cases h : j.jobId = jobId
  · rw [if_pos h]
    exact ⟨rfl, rfl, rfl, rfl, fun hc => hc⟩
  · rw [if_neg h]
    exact jobEvol_refl j

theorem completeJob_jobs_evolve (s : Store) (jobId : String) :
    JobsEvolve s.jobs (completeJob s jobId).jobs := by
  unfold completeJob JobsEvolve
  simp only []
  rw [List.forall₂_map_right_iff, List.forall₂_same]
  intro j _
  by_cases h : j.jobId = jobId
  · rw [if_pos h]
    exact ⟨rfl, rfl, rfl, rfl, fun _ => rfl⟩
  · rw [if_neg h]
    exact jobEvol_refl j

theorem drainRequests_jobs_evolve (oracle : HttpOracle) (clock : Nat → Int)
    (jobId : String) (delay : Int) :
    ∀ (Q : List RequestRow) (s : Store) (i : Nat),
      JobsEvolve s.jobs (drainRequests oracle clock jobId delay s Q i).jobs := by
  intro Q
  induction Q with
  | nil => intro s i; exact jobsEvolve_refl s.jobs
  | cons q Q' ih =>
    intro s i
    simp only [drainRequests]
    exact jobsEvolve_trans (processOne_jobs_evolve oracle (clock i) jobId delay s q)
      (ih (processOne oracle (clock i) jobId delay s q) (i + 1))

theorem drainJob_jobs_evolve (oracle : HttpOracle) (clock : Nat → Int) (s : Store)
    (job : JobRow) (i : Nat) :
    JobsEvolve s.jobs (drainJob oracle clock s job i).jobs := by
  unfold drainJob
  exact jobsEvolve_trans
    (drainRequests_jobs_evolve oracle clock job.jobId
      (calculateDelay job.rateLimit job.rateUnit) (pendingRequests s job.jobId) s i)
    (completeJob_jobs_evolve _ job.jobId)

theorem resumeLoop_jobs_evolve (oracle : HttpOracle) (clock : Nat → Int) :
    ∀ (fuel : Nat) (s : Store) (i : Nat),
      JobsEvolve s.jobs (resumeLoop oracle clock fuel s i).jobs := by
  intro fuel
  induction fuel with
  | zero => intro s i; exact jobsEvolve_refl s.jobs
  | succ fuel ih =>
    intro s i
    simp only [resumeLoop]
    cases h : nextQueuedJob s with
    | none => exact jobsEvolve_refl s.jobs
    | some job =>
      exact jobsEvolve_trans (drainJob_jobs_evolve oracle clock s job i)
        (ih (drainJob oracle clock s job i) (i + (pendingRequests s job.jobId).length))

theorem jobsEvolve_jobIds {l l' : List JobRow} (h : JobsEvolve l l') :
    l'.map JobRow.jobId = l.map JobRow.jobId := by
  induction h with
  | nil => rfl
  | @cons a b l1 l2 hab htl ih => simp [hab.1, ih]

theorem jobsEvolve_length {l l' : List JobRow} (h : JobsEvolve l l') :
    l'.length = l.length := by
  induction h with
  | nil => rfl
  | @cons a b l1 l2 hab htl ih => simp [ih]

theorem storeWF_ids_nodup {s : Store} (h : StoreWF s) :
    (s.requests.map RequestRow.id).Nodup := h.1.nodup

theorem drainJob_WF (oracle : HttpOracle) (clock : Nat → Int) (s : Store)
    (job : JobRow) (i : Nat) (hWF : StoreWF s) :
    StoreWF (drainJob oracle clock s job i) := by
  obtain ⟨h1, h2, h3⟩ := hWF
  have hids := drainJob_ids oracle clock s job i h1.nodup
  refine ⟨?_, ?_, ?_⟩
  · rw [hids]; exact h1
  · intro r hr
    have hmem : r.id ∈ (drainJob oracle clock s job i).requests.map RequestRow.id :=
      List.mem_map_of_mem RequestRow.id hr
    rw [hids] at hmem
    obtain ⟨r0, hr0, hid⟩ := List.mem_map.mp hmem
    rw [drainJob_nextId, ← hid]
    exact h2 r0 hr0
  · rw [jobsEvolve_jobIds (drainJob_jobs_evolve oracle clock s job i)]
    exact h3

theorem resumeLoop_WF (oracle : HttpOracle) (clock : Nat → Int) :
    ∀ (fuel : Nat) (s : Store) (i : Nat), StoreWF s →
      StoreWF (resumeLoop oracle clock fuel s i) := by
  intro fuel
  induction fuel with
  | zero => intro s i h; exact h
  | succ fuel ih =>
    intro s i h
    simp only [resumeLoop]
    cases hq : nextQueuedJob s with
    | none => exact h
    | some job =>
      exact ih (drainJob oracle clock s job i) (i + (pendingRequests s job.jobId).length)
        (drainJob_WF oracle clock s job i h)

theorem forall2_drainRel_to_reqEvol (oracle : HttpOracle) {ids : List Nat} :
    ∀ {l l' : List RequestRow}, List.Forall₂ (drainRel oracle ids) l l' →
      (∀ r ∈ l, r.id ∈ ids → isPending r = true) → ReqsEvolve oracle l l' := by
  intro l l' h
  induction h with
  | nil => intro _; exact List.Forall₂.nil
  | @cons a b l1 l2 hab htl ih =>
    intro hp
    refine List.Forall₂.cons ?_ (ih (fun r hr => hp r (List.mem_cons_of_mem a hr)))
    unfold drainRel at hab
    by_cases hin : a.id ∈ ids
    · rw [if_pos hin] at hab
      obtain ⟨t, rfl⟩ := hab
      exact Or.inr ⟨hp a (List.mem_cons_self a l1) hin, t, rfl⟩
    · rw [if_neg hin] at hab
      exact Or.inl hab

theorem drainJob_reqsEvolve (oracle : HttpOracle) (clock : Nat → Int) (s : Store)
    (job : JobRow) (i : Nat) (hids : (s.requests.map RequestRow.id).Nodup) :
    ReqsEvolve oracle s.requests (drainJob oracle clock s job i).requests := by
  apply forall2_drainRel_to_reqEvol oracle (drainJob_forall2 oracle clock s job i hids)
  intro r hr hrid
  obtain ⟨q, hq, hqid⟩ := List.mem_map.mp hrid
  have hqmem : q ∈ s.requests := pendingRequests_sub s job.jobId q hq
  have hqp : pendingPred job.jobId q = true := pendingRequests_pend s job.jobId q hq
  have hrq : q = r := List.inj_on_of_nodup_map hids hqmem hr hqid
  subst hrq
  exact (Bool.and_eq_true _ _).mp hqp |>.2

theorem resumeLoop_reqsEvolve (oracle : HttpOracle) (clock : Nat → Int) :
    ∀ (fuel : Nat) (s : Store) (i : Nat), StoreWF s →
      ReqsEvolve oracle s.requests (resumeLoop oracle clock fuel s i).requests := by
  intro fuel
  induction fuel with
  | zero => intro s i _; exact reqsEvolve_refl oracle s.requests
  | succ fuel ih =>
    intro s i hWF
    simp only [resumeLoop]
    cases hq : nextQueuedJob s with
    | none => exact reqsEvolve_refl oracle s.requests
    | some job =>
      exact reqsEvolve_trans oracle
        (drainJob_reqsEvolve oracle clock s job i (storeWF_ids_nodup hWF))
        (ih (drainJob oracle clock s job i) (i + (pendingRequests s job.jobId).length)
          (drainJob_WF oracle clock s job i hWF))

theorem resumeProcessing_reqsEvolve (oracle : HttpOracle) (clock : Nat → Int)
    (st : EngineState) (hWF : StoreWF st.store) :
    ReqsEvolve oracle st.store.requests
      (resumeProcessing oracle clock st).store.requests := by
  unfold resumeProcessing
  by_cases hp : st.processing
  · rw [if_pos hp]
    exact reqsEvolve_refl oracle st.store.requests
  · rw [if_neg hp]
    exact resumeLoop_reqsEvolve oracle clock _ st.store 0 hWF

theorem resumeProcessing_jobs_evolve (oracle : HttpOracle) (clock : Nat → Int)
    (st : EngineState) :
    JobsEvolve st.store.jobs (resumeProcessing oracle clock st).store.jobs := by
  unfold resumeProcessing
  by_cases hp : st.processing
  · rw [if_pos hp]
    exact jobsEvolve_refl st.store.jobs
  · rw [if_neg hp]
    exact resumeLoop_jobs_evolve oracle clock _ st.store 0

/-! ### The admission inserts -/

theorem insertRequestRows_eq (jobId : String) :
    ∀ (cfgs : List RequestConfig) (s : Store),
      insertRequestRows s jobId cfgs =
        ⟨s.jobs, s.requests ++ mkRows jobId s.nextId cfgs,
          s.nextId + cfgs.length, s.alarm⟩ := by
  intro cfgs
  induction cfgs with
  | nil => intro s; simp [insertRequestRows, mkRows]
  | cons c rest ih =>
    intro s
    simp only [insertRequestRows, mkRows, ih]
    simp [List.append_assoc]
    omega

theorem mkRows_pending (jobId : String) :
    ∀ (base : Nat) (cfgs : List RequestConfig),
      ∀ r ∈ mkRows jobId base cfgs, r.jobId = jobId ∧ isPending r = true := by
  intro base cfgs
  induction cfgs generalizing base with
  | nil => intro r hr; cases hr
  | cons c rest ih =>
    intro r hr
    rcases List.mem_cons.mp hr with rfl | hr'
    · exact ⟨rfl, rfl⟩
    · exact ih (base + 1) r hr'

theorem mkRows_ids_bounds (jobId : String) :
    ∀ (cfgs : List RequestConfig) (base : Nat),
      List.Sorted (· < ·) ((mkRows jobId base cfgs).map RequestRow.id)
      ∧ ∀ r ∈ mkRows jobId base cfgs, base ≤ r.id ∧ r.id < base + cfgs.length := by
  intro cfgs
  induction cfgs with
  | nil => intro base; exact ⟨List.sorted_nil, fun r hr => absurd hr (List.not_mem_nil r)⟩
  | cons c rest ih =>
    intro base
    obtain ⟨hs, hb⟩ := ih (base + 1)
    constructor
    · simp only [mkRows, List.map_cons]
      refine List.sorted_cons.mpr ⟨?_, hs⟩
      intro x hx
      obtain ⟨r, hr, rfl⟩ := List.mem_map.mp hx
      exact Nat.lt_of_lt_of_le (Nat.lt_succ_self base) (hb r hr).1
    · intro r hr
      rcases List.mem_cons.mp hr with rfl | hr'
      · simp only [List.length_cons]
        exact ⟨Nat.le_refl base, by omega⟩
      · have := hb r hr'
        simp only [List.length_cons]
        omega

theorem insertJobRow_WF (s : Store) (jobId : String) (now : Int)
    (opts : RateLimitOptions) (hWF : StoreWF s)
    (hfresh : ∀ j ∈ s.jobs, j.jobId ≠ jobId) :
    StoreWF (insertJobRow s jobId now opts) := by
  obtain ⟨h1, h2, h3⟩ := hWF
  refine ⟨h1, h2, ?_⟩
  unfold insertJobRow
  simp only [List.map_append, List.map_cons, List.map_nil]
  rw [List.nodup_append]
  refine ⟨h3, List.nodup_singleton jobId, ?_⟩
  intro x hx
  obtain ⟨j, hj, rfl⟩ := List.mem_map.mp hx
  simp only [List.mem_singleton]
  exact fun hc => hfresh j hj (by simpa using hc)

theorem insertRequestRows_WF (s : Store) (jobId : String)
    (cfgs : List RequestConfig) (hWF : StoreWF s) :
    StoreWF (insertRequestRows s jobId cfgs) := by
  obtain ⟨h1, h2, h3⟩ := hWF
  rw [insertRequestRows_eq]
  obtain ⟨hs, hb⟩ := mkRows_ids_bounds jobId cfgs s.nextId
  refine ⟨?_, ?_, h3⟩
  · simp only [List.map_append]
    refine List.pairwise_append.mpr ⟨h1, hs, ?_⟩
    intro x hx y hy
    obtain ⟨r, hr, rfl⟩ := List.mem_map.mp hx
    obtain ⟨q, hq, rfl⟩ := List.mem_map.mp hy
    exact Nat.lt_of_lt_of_le (h2 r hr) (hb q hq).1
  · intro r hr
    simp only [List.mem_append] at hr
    rcases hr with hr | hr
    · exact Nat.lt_of_lt_of_le (h2 r hr) (Nat.le_add_right s.nextId cfgs.length)
    · exact (hb r hr).2

/-! ### Consequences of request evolution -/

theorem reqsEvolve_outcomeInv (oracle : HttpOracle) :
    ∀ {l l' : List RequestRow}, ReqsEvolve oracle l l' →
      (∀ r ∈ l, r.status = none ∨ r.error = none) →
      ∀ r' ∈ l', r'.status = none ∨ r'.error = none := by
  intro l l' h
  induction h with
  | nil => intro _ r' hr'; cases hr'
  | @cons a b l1 l2 hab htl ih =>
    intro hinv r' hr'
    rcases List.mem_cons.mp hr' with rfl | hr''
    · rcases hab with heq | ⟨hp, t, heq⟩
      · rw [heq]
        exact hinv a (List.mem_cons_self a l1)
      · rw [heq]
        rcases resolvedRow_outcome_of_pending oracle t a hp with h | h
        · exact Or.inl h
        · exact Or.inr h
    · exact ih (fun r hr => hinv r (List.mem_cons_of_mem a hr)) r' hr''

theorem reqsEvolve_resolved_mem (oracle : HttpOracle) {l l' : List RequestRow}
    (h : ReqsEvolve oracle l l') (r : RequestRow) (hr : r ∈ l)
    (hres : isPending r = false) : r ∈ l' := by
  obtain ⟨b, hb, hevol⟩ := forall2_mem_left h hr
  rcases hevol with rfl | ⟨hp, _, _⟩
  · exact hb
  · rw [hres] at hp
    cases hp

/-! ### Unfolding `schedule` -/

theorem validateSchedule_none_iff (reqs : List RequestConfig)
    (opts : RateLimitOptions) :
    validateSchedule reqs opts = none ↔
      (reqs ≠ [] ∧ (∀ r ∈ reqs, r.url ≠ "" ∧ r.method ≠ "")
        ∧ 0 < opts.rateLimit ∧ opts.unit ∈ (["hour", "minute", "second"] : List String)) := by
  unfold validateSchedule
  constructor
  · intro h
    by_cases h1 : reqs.isEmpty
    · rw [if_pos h1] at h; cases h
    · rw [if_neg h1] at h
      by_cases h2 : reqs.any (fun r => r.url = "" || r.method = "")
      · rw [if_pos h2] at h; cases h
      · rw [if_neg h2] at h
        by_cases h3 : ¬ 0 < opts.rateLimit
        · rw [if_pos h3] at h; cases h
        · rw [if_neg h3] at h
          by_cases h4 : ¬ opts.unit ∈ (["hour", "minute", "second"] : List String)
          · rw [if_pos h4] at h; cases h
          · refine ⟨by simpa using h1, ?_, by omega, not_not.mp h4⟩
            intro r hr
            have := fun hc => h2 (List.any_eq_true.mpr ⟨r, hr, hc⟩)
            constructor
            · intro hc; exact this (by simp [hc])
            · intro hc; exact this (by simp [hc])
  · rintro ⟨h1, h2, h3, h4⟩
    rw [if_neg (by simpa using h1)]
    rw [if_neg (fun hc => ?_)]
    · rw [if_neg (by omega), if_neg (not_not_intro h4)]
    · obtain ⟨r, hr, hror⟩ := List.any_eq_true.mp hc
      rcases Bool.or_eq_true _ _ |>.mp hror with h | h
      · exact (h2 r hr).1 (by simpa using h)
      · exact (h2 r hr).2 (by simpa using h)

theorem schedule_resuming_eq (oracle : HttpOracle) (clock : Nat → Int) (now : Int)
    (st : EngineState) (jobId : String) (reqs : List RequestConfig)
    (opts : RateLimitOptions)
    (hval : validateSchedule reqs opts = none)
    (hex : st.store.jobs.any (fun j => j.jobId == jobId) = true) :
    schedule oracle clock now st jobId reqs opts = Except.ok (st, ⟨jobId, true⟩) := by
  unfold schedule
  rw [hval]
  simp only [hex, if_pos, if_true]

theorem schedule_new_eq (oracle : HttpOracle) (clock : Nat → Int) (now : Int)
    (st : EngineState) (jobId : String) (reqs : List RequestConfig)
    (opts : RateLimitOptions)
    (hval : validateSchedule reqs opts = none)
    (hnew : st.store.jobs.any (fun j => j.jobId == jobId) = false) :
    schedule oracle clock now st jobId reqs opts =
      Except.ok
        (if st.processing then
          (⟨insertRequestRows (insertJobRow st.store jobId now opts) jobId reqs,
            st.processing⟩ : EngineState)
         else resumeProcessing oracle clock
          ⟨insertRequestRows (insertJobRow st.store jobId now opts) jobId reqs,
            st.processing⟩,
        ⟨jobId, false⟩) := by
  unfold schedule
  rw [hval]
  simp only [hnew, Bool.false_eq_true, if_neg, if_false]

theorem schedule_error_iff (oracle : HttpOracle) (clock : Nat → Int) (now : Int)
    (st : EngineState) (jobId : String) (reqs : List RequestConfig)
    (opts : RateLimitOptions) :
    (∃ m, schedule oracle clock now st jobId reqs opts = Except.error m) ↔
      ¬ validateSchedule reqs opts = none := by
  constructor
  · rintro ⟨m, hm⟩ hval
    by_cases hex : st.store.jobs.any (fun j => j.jobId == jobId) = true
    · rw [schedule_resuming_eq oracle clock now st jobId reqs opts hval hex] at hm
      cases hm
    · rw [schedule_new_eq oracle clock now st jobId reqs opts hval
        (by simpa using hex)] at hm
      cases hm
  · intro hval
    cases hsome : validateSchedule reqs opts with
    | none => exact absurd hsome hval
    | some m =>
      refine ⟨m, ?_⟩
      unfold schedule
      rw [hsome]

theorem jobs_any_iff (l : List JobRow) (jobId : String) :
    (l.any (fun j => j.jobId == jobId) = true) ↔ ∃ j ∈ l, j.jobId = jobId := by
  simp [List.any_eq_true]

/-! ### Claims -/

/-- C8: for every positive integer rate limit and any unit, the computed
inter-request delay is the least integer number of milliseconds `d` with
`d * rateLimit ≥ unitMilliseconds` — i.e. `ceil(unitMs / rateLimit)` — with
`unitMs` 3600000 for hour, 60000 for minute, 1000 for second; in particular
`calculateDelay 60 "minute" = 1000`, the spacing applied between
consecutive dispatches. -/
theorem claim_c8_delay (r : Int) (hr : 0 < r) (u : String) :
    unitInMs u ≤ calculateDelay r u * r
    ∧ (calculateDelay r u - 1) * r < unitInMs u
    ∧ unitInMs "hour" = 3600000 ∧ unitInMs "minute" = 60000
    ∧ unitInMs "second" = 1000
    ∧ calculateDelay 60 "minute" = 1000 := by
  have hrQ : (0 : ℚ) < (r : ℚ) := by exact_mod_cast hr
  refine ⟨?_, ?_, rfl, rfl, rfl, ?_⟩
  · have h1 : ((unitInMs u : ℚ) / (r : ℚ)) ≤ (calculateDelay r u : ℚ) :=
      Int.le_ceil _
    have h2 : (unitInMs u : ℚ) ≤ (calculateDelay r u : ℚ) * (r : ℚ) :=
      (div_le_iff₀ hrQ).mp h1
    exact_mod_cast h2
  · have h1 : (calculateDelay r u : ℚ) < (unitInMs u : ℚ) / (r : ℚ) + 1 :=
      Int.ceil_lt_add_one _
    have h2 : (calculateDelay r u : ℚ) - 1 < (unitInMs u : ℚ) / (r : ℚ) := by
      linarith
    have h3 : ((calculateDelay r u : ℚ) - 1) * (r : ℚ) < (unitInMs u : ℚ) :=
      (lt_div_iff₀ hrQ).mp h2
    exact_mod_cast h3
  · unfold calculateDelay unitInMs
    rw [if_neg (by decide), if_pos rfl]
    have he : ((60000 : Int) : ℚ) / ((60 : Int) : ℚ) = ((1000 : Int) : ℚ) := by
      norm_num
    rw [he, Int.ceil_intCast]

theorem claim_c8_delay_witness :
    0 < (60 : Int)
    ∧ (unitInMs "minute" ≤ calculateDelay 60 "minute" * 60
      ∧ (calculateDelay 60 "minute" - 1) * 60 < unitInMs "minute"
      ∧ unitInMs "hour" = 3600000 ∧ unitInMs "minute" = 60000
      ∧ unitInMs "second" = 1000
      ∧ calculateDelay 60 "minute" = 1000) :=
  ⟨by norm_num, claim_c8_delay 60 (by norm_num) "minute"⟩

theorem validateSchedule_some_iff (reqs : List RequestConfig)
    (opts : RateLimitOptions) :
    ¬ validateSchedule reqs opts = none ↔
      (reqs = [] ∨ (∃ r ∈ reqs, r.url = "" ∨ r.method = "")
        ∨ ¬ 0 < opts.rateLimit
        ∨ opts.unit ∉ (["hour", "minute", "second"] : List String)) := by
  rw [validateSchedule_none_iff]
  constructor
  · intro h
    by_contra hc
    push_neg at hc
    obtain ⟨h1, h2, h3, h4⟩ := hc
    refine h ⟨h1, ?_, by omega, h4⟩
    intro r hr
    have := h2 r hr
    exact ⟨this.1, this.2⟩
  · rintro (h | ⟨r, hr, hror⟩ | h | h) ⟨h1, h2, h3, h4⟩
    · exact h1 h
    · rcases hror with h' | h'
      · exact (h2 r hr).1 h'
      · exact (h2 r hr).2 h'
    · exact h h3
    · exact h h4

/-- C4: `schedule` throws a validation error — before any job or request
row is written, since validation precedes the insert transaction in the
function body — exactly when the request list is empty, some entry has a
missing (empty, hence falsy) url or method, the rate limit is not a
positive integer, or the unit is unrecognized; with the default options
`{rateLimit: 5000, unit: "hour"}` only the request-list conditions can
fail. -/
theorem claim_c4_validation (oracle : HttpOracle) (clock : Nat → Int)
    (now : Int) (st : EngineState) (jobId : String)
    (reqs : List RequestConfig) (opts : RateLimitOptions) :
    ((∃ m, schedule oracle clock now st jobId reqs opts = Except.error m) ↔
      (reqs = [] ∨ (∃ r ∈ reqs, r.url = "" ∨ r.method = "")
        ∨ ¬ 0 < opts.rateLimit
        ∨ opts.unit ∉ (["hour", "minute", "second"] : List String)))
    ∧ defaultOptions = ⟨5000, "hour"⟩
    ∧ ((∃ m, schedule oracle clock now st jobId reqs defaultOptions = Except.error m) ↔
        (reqs = [] ∨ ∃ r ∈ reqs, r.url = "" ∨ r.method = "")) := by
  refine ⟨?_, rfl, ?_⟩
  · rw [schedule_error_iff, validateSchedule_some_iff]
  · rw [schedule_error_iff, validateSchedule_some_iff]
    constructor
    · rintro (h | h | h | h)
      · exact Or.inl h
      · exact Or.inr h
      · exact absurd (show (0 : Int) < defaultOptions.rateLimit by decide) h
      · exact absurd (show defaultOptions.unit ∈
          (["hour", "minute", "second"] : List String) by decide) h
    · rintro (h | h)
      · exact Or.inl h
      · exact Or.inr (Or.inl h)

theorem insertRows_jobIds (s : Store) (jobId : String) (now : Int)
    (opts : RateLimitOptions) (reqs : List RequestConfig) :
    (insertRequestRows (insertJobRow s jobId now opts) jobId reqs).jobs
      = s.jobs ++ [⟨jobId, now, JobState.processing, opts.rateLimit, opts.unit, -1⟩] := by
  rw [insertRequestRows_eq]
  rfl

theorem schedule_ok_job_exists (oracle : HttpOracle) (clock : Nat → Int)
    (now : Int) (st : EngineState) (jobId : String) (reqs : List RequestConfig)
    (opts : RateLimitOptions) (st1 : EngineState) (res : ScheduleResult)
    (hok : schedule oracle clock now st jobId reqs opts = Except.ok (st1, res)) :
    st1.store.jobs.any (fun j => j.jobId == jobId) = true := by
  have hval : validateSchedule reqs opts = none := by
    cases hv : validateSchedule reqs opts with
    | none => rfl
    | some m =>
      unfold schedule at hok
      rw [hv] at hok
      cases hok
  by_cases hex : st.store.jobs.any (fun j => j.jobId == jobId) = true
  · rw [schedule_resuming_eq oracle clock now st jobId reqs opts hval hex] at hok
    cases hok
    exact hex
  · have hnew : st.store.jobs.any (fun j => j.jobId == jobId) = false := by
      simpa using hex
    rw [schedule_new_eq oracle clock now st jobId reqs opts hval hnew] at hok
    cases hok
    rw [jobs_any_iff]
    have hmem : (⟨jobId, now, JobState.processing, opts.rateLimit, opts.unit, -1⟩ : JobRow)
        ∈ (insertRequestRows (insertJobRow st.store jobId now opts) jobId reqs).jobs := by
      rw [insertRows_jobIds]
      exact List.mem_append_right _ (List.mem_singleton_self _)
    by_cases hp : st.processing
    · rw [if_pos hp]
      exact ⟨_, hmem, rfl⟩
    · rw [if_neg hp]
      have hidseq := jobsEvolve_jobIds (resumeProcessing_jobs_evolve oracle clock
        ⟨insertRequestRows (insertJobRow st.store jobId now opts) jobId reqs,
          st.processing⟩)
      have hin : jobId ∈ (resumeProcessing oracle clock
          ⟨insertRequestRows (insertJobRow st.store jobId now opts) jobId reqs,
            st.processing⟩).store.jobs.map JobRow.jobId := by
        rw [hidseq]
        exact List.mem_map_of_mem JobRow.jobId hmem
      obtain ⟨j, hj, hjid⟩ := List.mem_map.mp hin
      exact ⟨j, hj, hjid⟩

/-- C2: a `schedule` call with valid arguments whose `jobId` already has a
job row returns `{jobId, resuming: true}` and returns the engine state
unchanged — no job row modified, no request rows inserted; consequently a
`schedule` immediately following a successful `schedule` with the same
`jobId` reports `resuming: true` and leaves the state unchanged, so no
Request rows are duplicated. -/
theorem claim_c2_duplicate_submission (oracle oracle2 : HttpOracle)
    (clock clock2 : Nat → Int) (now now2 : Int) (st : EngineState)
    (jobId : String) (reqs reqs2 : List RequestConfig)
    (opts opts2 : RateLimitOptions)
    (hval : validateSchedule reqs opts = none)
    (hval2 : validateSchedule reqs2 opts2 = none) :
    ((∃ j ∈ st.store.jobs, j.jobId = jobId) →
      schedule oracle clock now st jobId reqs opts = Except.ok (st, ⟨jobId, true⟩))
    ∧ (∀ st1 res, schedule oracle clock now st jobId reqs opts = Except.ok (st1, res) →
        schedule oracle2 clock2 now2 st1 jobId reqs2 opts2
          = Except.ok (st1, ⟨jobId, true⟩)) := by
  constructor
  · intro hex
    exact schedule_resuming_eq oracle clock now st jobId reqs opts hval
      ((jobs_any_iff st.store.jobs jobId).mpr hex)
  · intro st1 res hok
    exact schedule_resuming_eq oracle2 clock2 now2 st1 jobId reqs2 opts2 hval2
      (schedule_ok_job_exists oracle clock now st jobId reqs opts st1 res hok)

theorem claim_c2_duplicate_submission_witness :
    validateSchedule [⟨"https://x/a", "GET", none, none⟩] ⟨2, "second"⟩ = none
    ∧ (((∃ j ∈ (⟨⟨[⟨"j1", 5, JobState.processing, 2, "second", -1⟩],
          [⟨1, "j1", "https://x/a", "GET", none, none, none, none, none, none⟩],
          2, none⟩, false⟩ : EngineState).store.jobs, j.jobId = "j1") →
        schedule (fun _ => Except.error "net down") (fun _ => 9) 7
          ⟨⟨[⟨"j1", 5, JobState.processing, 2, "second", -1⟩],
            [⟨1, "j1", "https://x/a", "GET", none, none, none, none, none, none⟩],
            2, none⟩, false⟩ "j1" [⟨"https://x/a", "GET", none, none⟩] ⟨2, "second"⟩
          = Except.ok (⟨⟨[⟨"j1", 5, JobState.processing, 2, "second", -1⟩],
              [⟨1, "j1", "https://x/a", "GET", none, none, none, none, none, none⟩],
              2, none⟩, false⟩, ⟨"j1", true⟩))
      ∧ (∀ st1 res, schedule (fun _ => Except.error "net down") (fun _ => 9) 7
            ⟨⟨[⟨"j1", 5, JobState.processing, 2, "second", -1⟩],
              [⟨1, "j1", "https://x/a", "GET", none, none, none, none, none, none⟩],
              2, none⟩, false⟩ "j1" [⟨"https://x/a", "GET", none, none⟩] ⟨2, "second"⟩
            = Except.ok (st1, res) →
          schedule (fun _ => Except.error "net down") (fun _ => 9) 7 st1 "j1"
            [⟨"https://x/a", "GET", none, none⟩] ⟨2, "second"⟩
            = Except.ok (st1, ⟨"j1", true⟩))) :=
  ⟨by decide,
    claim_c2_duplicate_submission (fun _ => Except.error "net down")
      (fun _ => Except.error "net down") (fun _ => 9) (fun _ => 9) 7 7
      ⟨⟨[⟨"j1", 5, JobState.processing, 2, "second", -1⟩],
        [⟨1, "j1", "https://x/a", "GET", none, none, none, none, none, none⟩],
        2, none⟩, false⟩ "j1" [⟨"https://x/a", "GET", none, none⟩]
      [⟨"https://x/a", "GET", none, none⟩] ⟨2, "second"⟩ ⟨2, "second"⟩
      (by decide) (by decide)⟩

/-- C6 counterexample: a successful response (`ok`, status 200) with a
non-structured content type and raw text body `""` does not get the raw
text recorded as `responseData` — the write is
`responseData ? JSON.stringify(responseData) : null` and `""` is falsy, so
NULL is stored (the claim requires the raw text body `""` to be
recorded). -/
theorem claim_c6_counterexample :
    (processOne
        (fun _ => Except.ok ⟨true, 200, some "text/plain", Except.error "no json", ""⟩)
        0 "j1" 1000
        ⟨[⟨"j1", 0, JobState.processing, 1, "second", -1⟩],
          [⟨1, "j1", "https://x/a", "GET", none, none, none, none, none, none⟩], 2, none⟩
        ⟨1, "j1", "https://x/a", "GET", none, none, none, none, none, none⟩).requests.map
        RequestRow.responseData = [none]
    ∧ ¬ ((processOne
        (fun _ => Except.ok ⟨true, 200, some "text/plain", Except.error "no json", ""⟩)
        0 "j1" 1000
        ⟨[⟨"j1", 0, JobState.processing, 1, "second", -1⟩],
          [⟨1, "j1", "https://x/a", "GET", none, none, none, none, none, none⟩], 2, none⟩
        ⟨1, "j1", "https://x/a", "GET", none, none, none, none, none, none⟩).requests.map
        RequestRow.responseData = [some ""])
    ∧ (processOne
        (fun _ => Except.ok ⟨true, 200, some "text/plain", Except.error "no json", ""⟩)
        0 "j1" 1000
        ⟨[⟨"j1", 0, JobState.processing, 1, "second", -1⟩],
          [⟨1, "j1", "https://x/a", "GET", none, none, none, none, none, none⟩], 2, none⟩
        ⟨1, "j1", "https://x/a", "GET", none, none, none, none, none, none⟩).requests.map
        RequestRow.status = [some 200] := by
  refine ⟨?_, ?_, ?_⟩ <;> decide

/-- C6 (amended): for an executed pending request, the outcome row records:
on a successful structured (JSON) response, the numeric status together
with the decoded body — the decoded body is stored only when it is truthy,
otherwise `responseData` stays NULL; on a successful non-structured
response, the raw text body — only when non-empty (truthy), otherwise
NULL; on a non-exception failure response, the numeric status with NULL
`responseData`; on a transport or decode exception, `error` is the
exception message and `status` stays NULL.  All other rows are
untouched. -/
theorem claim_c6_response_recording (oracle : HttpOracle) (now : Int)
    (jobId : String) (delay : Int) (s : Store) (req : RequestRow)
    (hids : (s.requests.map RequestRow.id).Nodup) (hmem : req ∈ s.requests)
    (hpend : isPending req = true) :
    (processOne oracle now jobId delay s req).requests
      = s.requests.map (fun r => if r.id = req.id then resolvedRow oracle now req else r)
    ∧ (∀ resp : HttpResponse, oracle req = Except.ok resp →
        ((∀ v, resp.ok = true → contentTypeIsJson resp.contentType = true →
            resp.jsonResult = Except.ok v →
            (resolvedRow oracle now req).status = some resp.status
            ∧ (resolvedRow oracle now req).responseData
                = (if v.truthy then some v.str else none)
            ∧ (resolvedRow oracle now req).error = none)
        ∧ (resp.ok = true → contentTypeIsJson resp.contentType = false →
            (resolvedRow oracle now req).status = some resp.status
            ∧ (resolvedRow oracle now req).responseData
                = (if resp.textBody = "" then none else some resp.textBody)
            ∧ (resolvedRow oracle now req).error = none)
        ∧ (resp.ok = false →
            (resolvedRow oracle now req).status = some resp.status
            ∧ (resolvedRow oracle now req).responseData = none
            ∧ (resolvedRow oracle now req).error = none)))
    ∧ (∀ m, fetchOutcome oracle req = Except.error m →
        (resolvedRow oracle now req).error = some m
        ∧ (resolvedRow oracle now req).status = none
        ∧ (resolvedRow oracle now req).responseData = req.responseData) := by
  have hpn : req.status = none ∧ req.error = none := by
    unfold isPending at hpend
    simp only [Bool.and_eq_true, Option.isNone_iff_eq_none] at hpend
    exact hpend
  refine ⟨?_, ?_, ?_⟩
  · rw [processOne_requests]
    apply List.map_congr_left
    intro r hr
    by_cases h : r.id = req.id
    · rw [if_pos h, if_pos h]
      have hrq : r = req := List.inj_on_of_nodup_map hids hr hmem h
      subst hrq
      unfold resolvedRow
      cases hf : fetchOutcome oracle r with
      | ok p => cases p; rfl
      | error m => rfl
    · rw [if_neg h, if_neg h]
  · intro resp hresp
    refine ⟨?_, ?_, ?_⟩
    · intro v hok hjson hv
      have hf : fetchOutcome oracle req = Except.ok (resp.status, some v) := by
        simp [fetchOutcome, hresp, hok, hjson, hv]
      unfold resolvedRow
      rw [hf]
      refine ⟨rfl, ?_, hpn.2⟩
      unfold storedData
      rfl
    · intro hok hjson
      have hf : fetchOutcome oracle req
          = Except.ok (resp.status, some ⟨resp.textBody, resp.textBody ≠ ""⟩) := by
        simp [fetchOutcome, hresp, hok, hjson]
      unfold resolvedRow
      rw [hf]
      refine ⟨rfl, ?_, hpn.2⟩
      unfold storedData
      by_cases hb : resp.textBody = ""
      · simp [hb]
      · simp [hb]
    · intro hok
      have hf : fetchOutcome oracle req = Except.ok (resp.status, none) := by
        simp [fetchOutcome, hresp, hok]
      unfold resolvedRow
      rw [hf]
      exact ⟨rfl, rfl, hpn.2⟩
  · intro m hf
    unfold resolvedRow
    rw [hf]
    exact ⟨rfl, hpn.1, rfl⟩

theorem claim_c6_response_recording_witness :
    ((([⟨1, "j1", "https://x/a", "GET", none, none, none, none, none, none⟩]
        : List RequestRow).map RequestRow.id).Nodup
    ∧ (⟨1, "j1", "https://x/a", "GET", none, none, none, none, none, none⟩ : RequestRow)
        ∈ ([⟨1, "j1", "https://x/a", "GET", none, none, none, none, none, none⟩]
            : List RequestRow)
    ∧ isPending (⟨1, "j1", "https://x/a", "GET", none, none, none, none, none, none⟩
        : RequestRow) = true)
    ∧ ((processOne
          (fun _ => Except.ok ⟨true, 201, some "application/json; charset=utf-8",
            Except.ok ⟨"\x7b\x7d", true⟩, "ignored"⟩) 44 "j1" 500
          ⟨[⟨"j1", 0, JobState.processing, 2, "second", -1⟩],
            [⟨1, "j1", "https://x/a", "GET", none, none, none, none, none, none⟩], 2, none⟩
          ⟨1, "j1", "https://x/a", "GET", none, none, none, none, none, none⟩).requests
        = ([⟨1, "j1", "https://x/a", "GET", none, none, none, none, none, none⟩]
            : List RequestRow).map (fun r =>
              if r.id = (1 : Nat) then
                resolvedRow
                  (fun _ => Except.ok ⟨true, 201, some "application/json; charset=utf-8",
                    Except.ok ⟨"\x7b\x7d", true⟩, "ignored"⟩) 44
                  ⟨1, "j1", "https://x/a", "GET", none, none, none, none, none, none⟩
              else r)) := by
  refine ⟨⟨by decide, by decide, by decide⟩, ?_⟩
  exact (claim_c6_response_recording
    (fun _ => Except.ok ⟨true, 201, some "application/json; charset=utf-8",
      Except.ok ⟨"\x7b\x7d", true⟩, "ignored"⟩) 44 "j1" 500
    ⟨[⟨"j1", 0, JobState.processing, 2, "second", -1⟩],
      [⟨1, "j1", "https://x/a", "GET", none, none, none, none, none, none⟩], 2, none⟩
    ⟨1, "j1", "https://x/a", "GET", none, none, none, none, none, none⟩
    (by decide) (by decide) (by decide)).1

theorem isPending_not_iff (r : RequestRow) :
    (!(isPending r)) = (r.status.isSome || r.error.isSome) := by
  unfold isPending
  cases r.status <;> cases r.error <;> rfl

theorem statusOf_eq_found (s : Store) (now : Int) (jobId : String) (jb : JobRow)
    (hfind : s.jobs.find? (fun j => j.jobId == jobId) = some jb) :
    statusOf s now jobId =
      (if jb.jstatus = JobState.complete then
        StatusReply.complete
          ((List.insertionSort leId (s.requests.filter (fun r => r.jobId == jobId))).map
            (fun r =>
              ⟨r.url, r.method, r.status,
                match r.responseData with
                | none => none
                | some d => if d = "" then none else some d,
                r.error, r.processedAt⟩))
      else
        StatusReply.processing
          ⟨statusCompleted s jobId, statusTotal s jobId, jb.startedAt,
            estimateCompletion jb.startedAt (statusTotal s jobId)
              (statusCompleted s jobId) now⟩) := by
  unfold statusOf
  rw [hfind]

theorem statusOf_eq_missing (s : Store) (now : Int) (jobId : String)
    (hfind : s.jobs.find? (fun j => j.jobId == jobId) = none) :
    statusOf s now jobId = StatusReply.not_found := by
  unfold statusOf
  rw [hfind]

/-- C7: `status(jobId)` — a pure read of the store — answers `not_found`
exactly when no job row carries that id; for a job whose status is
`processing` (and which has at least one request row, as admission
guarantees) it reports `completed` as the number of the job's request rows
with non-null `status` or non-null `error`, `total` as the number of the
job's request rows, and `estimatedCompletion` as NULL when `completed = 0`
and otherwise `now + (total - completed) / (completed / elapsedSinceStart)`. -/
theorem claim_c7_status_report (s : Store) (now : Int) (jobId : String) :
    (statusOf s now jobId = StatusReply.not_found ↔ ∀ j ∈ s.jobs, j.jobId ≠ jobId)
    ∧ (∀ jb, s.jobs.find? (fun j => j.jobId == jobId) = some jb →
        jb.jstatus = JobState.processing →
        0 < totalCount s jobId →
        statusOf s now jobId = StatusReply.processing
          ⟨(s.requests.filter (fun r => r.jobId == jobId
              && (r.status.isSome || r.error.isSome))).length,
            totalCount s jobId, jb.startedAt,
            if (s.requests.filter (fun r => r.jobId == jobId
                && (r.status.isSome || r.error.isSome))).length = 0 then none
            else some ((now : ℚ)
              + ((totalCount s jobId : ℚ)
                  - ((s.requests.filter (fun r => r.jobId == jobId
                      && (r.status.isSome || r.error.isSome))).length : ℚ))
                / (((s.requests.filter (fun r => r.jobId == jobId
                      && (r.status.isSome || r.error.isSome))).length : ℚ)
                    / ((now : ℚ) - (jb.startedAt : ℚ))))⟩) := by
  have hcompleted : statusCompleted s jobId
      = (s.requests.filter (fun r => r.jobId == jobId
          && (r.status.isSome || r.error.isSome))).length := by
    unfold statusCompleted
    congr 1
    apply List.filter_congr
    intro r _
    rw [isPending_not_iff]
  constructor
  · constructor
    · intro hnf j hj hc
      have hjb : s.jobs.find? (fun j => j.jobId == jobId) ≠ none := by
        intro hnone
        have hne := List.find?_eq_none.mp hnone j hj
        simp only [beq_iff_eq] at hne
        exact hne hc
      cases hfind : s.jobs.find? (fun j => j.jobId == jobId) with
      | none => exact hjb hfind
      | some jb =>
        rw [statusOf_eq_found s now jobId jb hfind] at hnf
        by_cases h : jb.jstatus = JobState.complete
        · rw [if_pos h] at hnf; cases hnf
        · rw [if_neg h] at hnf; cases hnf
    · intro hall
      exact statusOf_eq_missing s now jobId
        (List.find?_eq_none.mpr (fun j hj => by simpa using hall j hj))
  · intro jb hfind hproc htot
    have hne : ¬ jb.jstatus = JobState.complete := by
      rw [hproc]; intro hc; cases hc
    rw [statusOf_eq_found s now jobId jb hfind, if_neg hne]
    have htoteq : statusTotal s jobId = totalCount s jobId := by
      have h0 : ¬ (s.requests.filter (fun r => r.jobId == jobId)).length = 0 := by
        unfold totalCount at htot
        omega
      show (if (s.requests.filter (fun r => r.jobId == jobId)).length = 0 then 1
          else (s.requests.filter (fun r => r.jobId == jobId)).length)
        = totalCount s jobId
      rw [if_neg h0]
      rfl
    rw [← hcompleted, htoteq]
    by_cases hz : statusCompleted s jobId = 0
    · simp [estimateCompletion, hz]
    · simp [estimateCompletion, hz]

theorem claim_c7_status_report_witness :
    ((⟨[⟨"j1", 10, JobState.processing, 2, "second", 0⟩],
        [⟨1, "j1", "u", "GET", none, none, some 200, none, none, some 11⟩,
         ⟨2, "j1", "v", "GET", none, none, none, none, none, none⟩],
        3, none⟩ : Store).jobs.find? (fun j => j.jobId == "j1")
      = some ⟨"j1", 10, JobState.processing, 2, "second", 0⟩)
    ∧ (⟨"j1", 10, JobState.processing, 2, "second", 0⟩ : JobRow).jstatus
        = JobState.processing
    ∧ 0 < totalCount ⟨[⟨"j1", 10, JobState.processing, 2, "second", 0⟩],
        [⟨1, "j1", "u", "GET", none, none, some 200, none, none, some 11⟩,
         ⟨2, "j1", "v", "GET", none, none, none, none, none, none⟩], 3, none⟩ "j1"
    ∧ statusOf ⟨[⟨"j1", 10, JobState.processing, 2, "second", 0⟩],
        [⟨1, "j1", "u", "GET", none, none, some 200, none, none, some 11⟩,
         ⟨2, "j1", "v", "GET", none, none, none, none, none, none⟩], 3, none⟩ 20 "j1"
      = StatusReply.processing ⟨1, 2, 10, some 30⟩ := by
  refine ⟨by decide, rfl, by decide, ?_⟩
  have h := (claim_c7_status_report
    ⟨[⟨"j1", 10, JobState.processing, 2, "second", 0⟩],
      [⟨1, "j1", "u", "GET", none, none, some 200, none, none, some 11⟩,
       ⟨2, "j1", "v", "GET", none, none, none, none, none, none⟩], 3, none⟩ 20 "j1").2
    ⟨"j1", 10, JobState.processing, 2, "second", 0⟩ (by decide) rfl (by decide)
  rw [h]
  have h1 : ((⟨[⟨"j1", 10, JobState.processing, 2, "second", 0⟩],
      [⟨1, "j1", "u", "GET", none, none, some 200, none, none, some 11⟩,
       ⟨2, "j1", "v", "GET", none, none, none, none, none, none⟩],
      3, none⟩ : Store).requests.filter (fun r => r.jobId == "j1"
        && (r.status.isSome || r.error.isSome))).length = 1 := by decide
  have h2 : totalCount ⟨[⟨"j1", 10, JobState.processing, 2, "second", 0⟩],
      [⟨1, "j1", "u", "GET", none, none, some 200, none, none, some 11⟩,
       ⟨2, "j1", "v", "GET", none, none, none, none, none, none⟩], 3, none⟩ "j1" = 2 := by
    decide
  rw [h1, h2]
  norm_num

theorem jobs_any_false (l : List JobRow) (jobId : String)
    (h : l.any (fun j => j.jobId == jobId) = false) : ∀ j ∈ l, j.jobId ≠ jobId := by
  intro j hj hc
  have ht : l.any (fun j => j.jobId == jobId) = true :=
    List.any_eq_true.mpr ⟨j, hj, by rw [hc]; exact beq_self_eq_true jobId⟩
  rw [h] at ht
  cases ht

theorem admitted_requests (s : Store) (jobId : String) (now : Int)
    (opts : RateLimitOptions) (reqs : List RequestConfig) :
    (insertRequestRows (insertJobRow s jobId now opts) jobId reqs).requests
      = s.requests ++ mkRows jobId s.nextId reqs := by
  rw [insertRequestRows_eq]
  rfl

theorem admitted_WF (s : Store) (jobId : String) (now : Int)
    (opts : RateLimitOptions) (reqs : List RequestConfig) (hWF : StoreWF s)
    (hfresh : ∀ j ∈ s.jobs, j.jobId ≠ jobId) :
    StoreWF (insertRequestRows (insertJobRow s jobId now opts) jobId reqs) :=
  insertRequestRows_WF _ jobId reqs (insertJobRow_WF s jobId now opts hWF hfresh)

theorem admitted_outcomeInv (s : Store) (jobId : String) (now : Int)
    (opts : RateLimitOptions) (reqs : List RequestConfig) (hInv : OutcomeInv s) :
    OutcomeInv (insertRequestRows (insertJobRow s jobId now opts) jobId reqs) := by
  intro r hr
  rw [admitted_requests] at hr
  rcases List.mem_append.mp hr with hr | hr
  · exact hInv r hr
  · have hp := (mkRows_pending jobId s.nextId reqs r hr).2
    unfold isPending at hp
    simp only [Bool.and_eq_true, Option.isNone_iff_eq_none] at hp
    exact Or.inl hp.1

/-- C3: `status` and `error` of a request row are never both set — after
the Draining loop or a `schedule` call, every row is still pending (both
NULL) or has exactly one of them set — and a resolved row is never written
again: it survives any engine operation as the identical row (no retry). -/
theorem claim_c3_outcome_exclusivity (oracle : HttpOracle) (clock : Nat → Int)
    (st : EngineState) (hWF : StoreWF st.store) (hInv : OutcomeInv st.store) :
    (OutcomeInv (resumeProcessing oracle clock st).store
      ∧ (∀ r ∈ st.store.requests, isPending r = false →
          r ∈ (resumeProcessing oracle clock st).store.requests))
    ∧ (∀ now jobId reqs opts st2 res,
        schedule oracle clock now st jobId reqs opts = Except.ok (st2, res) →
        OutcomeInv st2.store
        ∧ ∀ r ∈ st.store.requests, isPending r = false → r ∈ st2.store.requests) := by
  constructor
  · have hev := resumeProcessing_reqsEvolve oracle clock st hWF
    exact ⟨reqsEvolve_outcomeInv oracle hev hInv,
      fun r hr hres => reqsEvolve_resolved_mem oracle hev r hr hres⟩
  · intro now jobId reqs opts st2 res hok
    have hval : validateSchedule reqs opts = none := by
      cases hv : validateSchedule reqs opts with
      | none => rfl
      | some m => unfold schedule at hok; rw [hv] at hok; cases hok
    by_cases hex : st.store.jobs.any (fun j => j.jobId == jobId) = true
    · rw [schedule_resuming_eq oracle clock now st jobId reqs opts hval hex] at hok
      cases hok
      exact ⟨hInv, fun r hr _ => hr⟩
    · have hnew : st.store.jobs.any (fun j => j.jobId == jobId) = false := by
        simpa using hex
      rw [schedule_new_eq oracle clock now st jobId reqs opts hval hnew] at hok
      cases hok
      have hInv1 : OutcomeInv (insertRequestRows
          (insertJobRow st.store jobId now opts) jobId reqs) :=
        admitted_outcomeInv st.store jobId now opts reqs hInv
      have hWF1 : StoreWF (insertRequestRows
          (insertJobRow st.store jobId now opts) jobId reqs) :=
        admitted_WF st.store jobId now opts reqs hWF
          (jobs_any_false st.store.jobs jobId hnew)
      have hmem1 : ∀ r ∈ st.store.requests, r ∈ (insertRequestRows
          (insertJobRow st.store jobId now opts) jobId reqs).requests := by
        intro r hr
        rw [admitted_requests]
        exact List.mem_append_left _ hr
      by_cases hp : st.processing
      · rw [if_pos hp]
        exact ⟨hInv1, fun r hr _ => hmem1 r hr⟩
      · rw [if_neg hp]
        have hev := resumeProcessing_reqsEvolve oracle clock
          ⟨insertRequestRows (insertJobRow st.store jobId now opts) jobId reqs,
            st.processing⟩ hWF1
        refine ⟨reqsEvolve_outcomeInv oracle hev hInv1, ?_⟩
        intro r hr hres
        exact reqsEvolve_resolved_mem oracle hev r (hmem1 r hr) hres

theorem claim_c3_outcome_exclusivity_witness :
    (StoreWF (⟨[⟨"j1", 5, JobState.processing, 2, "second", -1⟩],
        [⟨1, "j1", "https://x/a", "GET", none, none, some 200, some "d", none, some 6⟩,
         ⟨2, "j1", "https://x/b", "GET", none, none, none, none, none, none⟩],
        3, some 11⟩ : Store)
      ∧ OutcomeInv (⟨[⟨"j1", 5, JobState.processing, 2, "second", -1⟩],
        [⟨1, "j1", "https://x/a", "GET", none, none, some 200, some "d", none, some 6⟩,
         ⟨2, "j1", "https://x/b", "GET", none, none, none, none, none, none⟩],
        3, some 11⟩ : Store))
    ∧ OutcomeInv (resumeProcessing (fun _ => Except.error "net down") (fun _ => 9)
        ⟨⟨[⟨"j1", 5, JobState.processing, 2, "second", -1⟩],
          [⟨1, "j1", "https://x/a", "GET", none, none, some 200, some "d", none, some 6⟩,
           ⟨2, "j1", "https://x/b", "GET", none, none, none, none, none, none⟩],
          3, some 11⟩, false⟩).store := by
  refine ⟨⟨by decide, by decide⟩, ?_⟩
  exact (claim_c3_outcome_exclusivity (fun _ => Except.error "net down") (fun _ => 9)
    ⟨⟨[⟨"j1", 5, JobState.processing, 2, "second", -1⟩],
      [⟨1, "j1", "https://x/a", "GET", none, none, some 200, some "d", none, some 6⟩,
       ⟨2, "j1", "https://x/b", "GET", none, none, none, none, none, none⟩],
      3, some 11⟩, false⟩ (by decide) (by decide)).1.1

/-! ### Faulted runs -/

theorem drainRequestsF_eq (oracle : HttpOracle) (clock : Nat → Int)
    (jobId : String) (delay : Int) (msg : String) :
    ∀ (Q : List RequestRow) (s : Store) (i k : Nat),
      drainRequestsF oracle clock jobId delay msg s Q i k =
        if Q.length ≤ k then
          Except.ok (drainRequests oracle clock jobId delay s Q i, k - Q.length)
        else Except.error (msg, drainRequests oracle clock jobId delay s (Q.take k) i) := by
  intro Q
  induction Q with
  | nil =>
    intro s i k
    simp [drainRequestsF, drainRequests]
  | cons q rest ih =>
    intro s i k
    cases k with
    | zero =>
      rw [if_neg (by simp)]
      simp [drainRequestsF, drainRequests]
    | succ k' =>
      simp only [drainRequestsF]
      rw [ih]
      by_cases hle : rest.length ≤ k'
      · rw [if_pos hle, if_pos (by simp only [List.length_cons]; omega)]
        simp only [drainRequests, List.length_cons]
        have harith : k' + 1 - (rest.length + 1) = k' - rest.length := by omega
        rw [harith]
      · rw [if_neg hle, if_neg (by simp only [List.length_cons]; omega)]
        simp only [List.take_succ_cons, drainRequests]

theorem drainTake_reqsEvolve (oracle : HttpOracle) (clock : Nat → Int)
    (s : Store) (jobId : String) (delay : Int) (k i : Nat)
    (hids : (s.requests.map RequestRow.id).Nodup) :
    ReqsEvolve oracle s.requests
      (drainRequests oracle clock jobId delay s
        ((pendingRequests s jobId).take k) i).requests := by
  have hsub : ((pendingRequests s jobId).take k).Sublist (pendingRequests s jobId) :=
    List.take_sublist k (pendingRequests s jobId)
  have hf2 := drainRequests_forall2 oracle clock jobId delay
    ((pendingRequests s jobId).take k) s i hids
    (fun q hq => pendingRequests_sub s jobId q (hsub.mem hq))
    ((pendingRequests_ids_nodup s jobId hids).sublist (hsub.map RequestRow.id))
  apply forall2_drainRel_to_reqEvol oracle hf2
  intro r hr hrid
  obtain ⟨q, hq, hqid⟩ := List.mem_map.mp hrid
  have hqmem : q ∈ s.requests := pendingRequests_sub s jobId q (hsub.mem hq)
  have hqp : pendingPred jobId q = true := pendingRequests_pend s jobId q (hsub.mem hq)
  have hrq : q = r := List.inj_on_of_nodup_map hids hqmem hr hqid
  subst hrq
  exact (Bool.and_eq_true _ _).mp hqp |>.2

theorem resumeLoopF_error (oracle : HttpOracle) (clock : Nat → Int) (msg : String) :
    ∀ (fuel : Nat) (s : Store) (i k : Nat) (m : String) (s0 : Store),
      StoreWF s →
      resumeLoopF oracle clock msg fuel s i k = Except.error (m, s0) →
      m = msg ∧ ReqsEvolve oracle s.requests s0.requests
        ∧ JobsEvolve s.jobs s0.jobs := by
  intro fuel
  induction fuel with
  | zero =>
    intro s i k m s0 _ h
    cases h
  | succ fuel ih =>
    intro s i k m s0 hWF h
    cases hq : nextQueuedJob s with
    | none =>
      simp only [resumeLoopF, hq] at h
      cases h
    | some job =>
      simp only [resumeLoopF, hq] at h
      rw [drainRequestsF_eq] at h
      by_cases hle : (pendingRequests s job.jobId).length ≤ k
      · rw [if_pos hle] at h
        simp only [] at h
        have hrec := ih (completeJob (drainRequests oracle clock job.jobId
            (calculateDelay job.rateLimit job.rateUnit) s
            (pendingRequests s job.jobId) i) job.jobId)
          (i + (pendingRequests s job.jobId).length)
          (k - (pendingRequests s job.jobId).length) m s0
          (drainJob_WF oracle clock s job i hWF) h
        refine ⟨hrec.1, ?_, ?_⟩
        · exact reqsEvolve_trans oracle
            (drainJob_reqsEvolve oracle clock s job i (storeWF_ids_nodup hWF)) hrec.2.1
        · exact jobsEvolve_trans (drainJob_jobs_evolve oracle clock s job i) hrec.2.2
      · rw [if_neg hle] at h
        cases h
        refine ⟨rfl, ?_, ?_⟩
        · exact drainTake_reqsEvolve oracle clock s job.jobId
            (calculateDelay job.rateLimit job.rateUnit) k i (storeWF_ids_nodup hWF)
        · exact drainRequests_jobs_evolve oracle clock job.jobId
            (calculateDelay job.rateLimit job.rateUnit)
            ((pendingRequests s job.jobId).take k) s i

/-- C9: when an uncaught exception aborts the Draining loop (modelled by a
fault injected after `faultAfter` processed requests), the `catch` block
arms the alarm at `catchTime + 5000` — a fixed delay independent of the
rate-limit delay — before the exception propagates, and every request that
was already resolved before the run survives as the identical row. -/
theorem claim_c9_loop_failure (oracle : HttpOracle) (clock : Nat → Int)
    (faultAfter : Nat) (msg : String) (catchTime : Int) (st : EngineState)
    (m : String) (st' : EngineState) (hWF : StoreWF st.store)
    (hrun : resumeProcessingF oracle clock faultAfter msg catchTime st
      = Except.error (m, st')) :
    m = msg
    ∧ st'.store.alarm = some (catchTime + 5000)
    ∧ ∀ r ∈ st.store.requests, isPending r = false → r ∈ st'.store.requests := by
  simp only [resumeProcessingF] at hrun
  by_cases hp : st.processing
  · rw [if_pos hp] at hrun
    cases hrun
  · rw [if_neg hp] at hrun
    cases hloop : resumeLoopF oracle clock msg
        (st.store.jobs.countP (fun j => j.jstatus == JobState.processing))
        st.store 0 faultAfter with
    | ok s1 =>
      simp only [hloop] at hrun
      cases hrun
    | error e =>
      cases e with
      | mk m0 s0 =>
        simp only [hloop, Except.error.injEq, Prod.mk.injEq] at hrun
        obtain ⟨hm, hst⟩ := hrun
        have hres := resumeLoopF_error oracle clock msg _ st.store 0 faultAfter m0 s0
          hWF hloop
        subst hm
        refine ⟨hres.1, ?_, ?_⟩
        · rw [← hst]
        · intro r hr hpend
          rw [← hst]
          exact reqsEvolve_resolved_mem oracle hres.2.1 r hr hpend

/-- C10 (implicit): when `resumeProcessing` exits via an exception, the
in-memory `processing` flag stays `true`; from then on, re-triggering the
loop is a no-op and every subsequent `schedule` on that instance only
inserts rows — the new requests stay pending, the alarm is untouched, and
the flag remains `true` — so recovery depends solely on the armed alarm
activating a fresh instance. -/
theorem claim_c10_stuck_processing_flag (oracle : HttpOracle) (clock : Nat → Int)
    (faultAfter : Nat) (msg : String) (catchTime : Int) (st : EngineState)
    (m : String) (st' : EngineState)
    (hrun : resumeProcessingF oracle clock faultAfter msg catchTime st
      = Except.error (m, st')) :
    st'.processing = true
    ∧ (∀ oracle2 clock2, resumeProcessing oracle2 clock2 st' = st')
    ∧ (∀ oracle2 clock2 now jobId reqs opts st2 res,
        schedule oracle2 clock2 now st' jobId reqs opts = Except.ok (st2, res) →
        st2.processing = true
        ∧ st2.store.alarm = st'.store.alarm
        ∧ (res.resuming = true → st2 = st')
        ∧ (res.resuming = false →
            st2.store.requests
              = st'.store.requests ++ mkRows jobId st'.store.nextId reqs
            ∧ ∀ r ∈ mkRows jobId st'.store.nextId reqs, isPending r = true)) := by
  have hflag : st'.processing = true := by
    simp only [resumeProcessingF] at hrun
    by_cases hp : st.processing
    · rw [if_pos hp] at hrun
      cases hrun
    · rw [if_neg hp] at hrun
      cases hloop : resumeLoopF oracle clock msg
          (st.store.jobs.countP (fun j => j.jstatus == JobState.processing))
          st.store 0 faultAfter with
      | ok s1 =>
        simp only [hloop] at hrun
        cases hrun
      | error e =>
        cases e with
        | mk m0 s0 =>
          simp only [hloop, Except.error.injEq, Prod.mk.injEq] at hrun
          rw [← hrun.2]
  refine ⟨hflag, ?_, ?_⟩
  · intro oracle2 clock2
    unfold resumeProcessing
    rw [if_pos hflag]
  · intro oracle2 clock2 now jobId reqs opts st2 res hok
    have hval : validateSchedule reqs opts = none := by
      cases hv : validateSchedule reqs opts with
      | none => rfl
      | some mm => unfold schedule at hok; rw [hv] at hok; cases hok
    by_cases hex : st'.store.jobs.any (fun j => j.jobId == jobId) = true
    · rw [schedule_resuming_eq oracle2 clock2 now st' jobId reqs opts hval hex] at hok
      cases hok
      refine ⟨hflag, rfl, fun _ => rfl, ?_⟩
      intro hc
      cases hc
    · have hnew : st'.store.jobs.any (fun j => j.jobId == jobId) = false := by
        simpa using hex
      rw [schedule_new_eq oracle2 clock2 now st' jobId reqs opts hval hnew] at hok
      rw [if_pos hflag] at hok
      cases hok
      refine ⟨hflag, ?_, ?_, ?_⟩
      · rw [insertRequestRows_eq]
        rfl
      · intro hc
        cases hc
      · intro _
        exact ⟨admitted_requests st'.store jobId now opts reqs,
          fun r hr => (mkRows_pending jobId st'.store.nextId reqs r hr).2⟩

theorem claim_c9_loop_failure_witness :
    (StoreWF (⟨[⟨"j1", 50, JobState.processing, 2, "second", -1⟩],
        [⟨1, "j1", "https://x/a", "GET", none, none, some 200, some "d", none, some 10⟩,
         ⟨2, "j1", "https://x/b", "GET", none, none, none, none, none, none⟩,
         ⟨3, "j1", "https://x/c", "GET", none, none, none, none, none, none⟩],
        4, some 123⟩ : Store)
    ∧ resumeProcessingF (fun _ => Except.error "net down") (fun _ => 100) 0 "boom" 999
        ⟨⟨[⟨"j1", 50, JobState.processing, 2, "second", -1⟩],
          [⟨1, "j1", "https://x/a", "GET", none, none, some 200, some "d", none, some 10⟩,
           ⟨2, "j1", "https://x/b", "GET", none, none, none, none, none, none⟩,
           ⟨3, "j1", "https://x/c", "GET", none, none, none, none, none, none⟩],
          4, some 123⟩, false⟩
      = Except.error ("boom",
          ⟨⟨[⟨"j1", 50, JobState.processing, 2, "second", -1⟩],
            [⟨1, "j1", "https://x/a", "GET", none, none, some 200, some "d", none, some 10⟩,
             ⟨2, "j1", "https://x/b", "GET", none, none, none, none, none, none⟩,
             ⟨3, "j1", "https://x/c", "GET", none, none, none, none, none, none⟩],
            4, some 5999⟩, true⟩))
    ∧ ("boom" = "boom"
      ∧ (⟨⟨[⟨"j1", 50, JobState.processing, 2, "second", -1⟩],
            [⟨1, "j1", "https://x/a", "GET", none, none, some 200, some "d", none, some 10⟩,
             ⟨2, "j1", "https://x/b", "GET", none, none, none, none, none, none⟩,
             ⟨3, "j1", "https://x/c", "GET", none, none, none, none, none, none⟩],
            4, some 5999⟩, true⟩ : EngineState).store.alarm = some (999 + 5000)
      ∧ ∀ r ∈ (⟨⟨[⟨"j1", 50, JobState.processing, 2, "second", -1⟩],
            [⟨1, "j1", "https://x/a", "GET", none, none, some 200, some "d", none, some 10⟩,
             ⟨2, "j1", "https://x/b", "GET", none, none, none, none, none, none⟩,
             ⟨3, "j1", "https://x/c", "GET", none, none, none, none, none, none⟩],
            4, some 123⟩, false⟩ : EngineState).store.requests, isPending r = false →
          r ∈ (⟨⟨[⟨"j1", 50, JobState.processing, 2, "second", -1⟩],
            [⟨1, "j1", "https://x/a", "GET", none, none, some 200, some "d", none, some 10⟩,
             ⟨2, "j1", "https://x/b", "GET", none, none, none, none, none, none⟩,
             ⟨3, "j1", "https://x/c", "GET", none, none, none, none, none, none⟩],
            4, some 5999⟩, true⟩ : EngineState).store.requests) :=
  ⟨⟨by decide, by decide⟩,
    claim_c9_loop_failure (fun _ => Except.error "net down") (fun _ => 100) 0 "boom" 999
      ⟨⟨[⟨"j1", 50, JobState.processing, 2, "second", -1⟩],
        [⟨1, "j1", "https://x/a", "GET", none, none, some 200, some "d", none, some 10⟩,
         ⟨2, "j1", "https://x/b", "GET", none, none, none, none, none, none⟩,
         ⟨3, "j1", "https://x/c", "GET", none, none, none, none, none, none⟩],
        4, some 123⟩, false⟩ "boom"
      ⟨⟨[⟨"j1", 50, JobState.processing, 2, "second", -1⟩],
        [⟨1, "j1", "https://x/a", "GET", none, none, some 200, some "d", none, some 10⟩,
         ⟨2, "j1", "https://x/b", "GET", none, none, none, none, none, none⟩,
         ⟨3, "j1", "https://x/c", "GET", none, none, none, none, none, none⟩],
        4, some 5999⟩, true⟩ (by decide) (by decide)⟩

theorem claim_c10_stuck_processing_flag_witness :
    (resumeProcessingF (fun _ => Except.error "net down") (fun _ => 100) 0 "boom" 999
        ⟨⟨[⟨"j1", 50, JobState.processing, 2, "second", -1⟩],
          [⟨1, "j1", "https://x/a", "GET", none, none, none, none, none, none⟩],
          2, some 123⟩, false⟩
      = Except.error ("boom",
          ⟨⟨[⟨"j1", 50, JobState.processing, 2, "second", -1⟩],
            [⟨1, "j1", "https://x/a", "GET", none, none, none, none, none, none⟩],
            2, some 5999⟩, true⟩))
    ∧ ((⟨⟨[⟨"j1", 50, JobState.processing, 2, "second", -1⟩],
          [⟨1, "j1", "https://x/a", "GET", none, none, none, none, none, none⟩],
          2, some 5999⟩, true⟩ : EngineState).processing = true
      ∧ (∀ oracle2 clock2, resumeProcessing oracle2 clock2
          ⟨⟨[⟨"j1", 50, JobState.processing, 2, "second", -1⟩],
            [⟨1, "j1", "https://x/a", "GET", none, none, none, none, none, none⟩],
            2, some 5999⟩, true⟩
          = ⟨⟨[⟨"j1", 50, JobState.processing, 2, "second", -1⟩],
              [⟨1, "j1", "https://x/a", "GET", none, none, none, none, none, none⟩],
              2, some 5999⟩, true⟩)
      ∧ (∀ oracle2 clock2 now jobId reqs opts st2 res,
          schedule oracle2 clock2 now
            ⟨⟨[⟨"j1", 50, JobState.processing, 2, "second", -1⟩],
              [⟨1, "j1", "https://x/a", "GET", none, none, none, none, none, none⟩],
              2, some 5999⟩, true⟩ jobId reqs opts = Except.ok (st2, res) →
          st2.processing = true
          ∧ st2.store.alarm = (⟨⟨[⟨"j1", 50, JobState.processing, 2, "second", -1⟩],
              [⟨1, "j1", "https://x/a", "GET", none, none, none, none, none, none⟩],
              2, some 5999⟩, true⟩ : EngineState).store.alarm
          ∧ (res.resuming = true →
              st2 = ⟨⟨[⟨"j1", 50, JobState.processing, 2, "second", -1⟩],
                [⟨1, "j1", "https://x/a", "GET", none, none, none, none, none, none⟩],
                2, some 5999⟩, true⟩)
          ∧ (res.resuming = false →
              st2.store.requests
                = (⟨⟨[⟨"j1", 50, JobState.processing, 2, "second", -1⟩],
                    [⟨1, "j1", "https://x/a", "GET", none, none, none, none, none, none⟩],
                    2, some 5999⟩, true⟩ : EngineState).store.requests
                  ++ mkRows jobId
                    (⟨⟨[⟨"j1", 50, JobState.processing, 2, "second", -1⟩],
                      [⟨1, "j1", "https://x/a", "GET", none, none, none, none, none, none⟩],
                      2, some 5999⟩, true⟩ : EngineState).store.nextId reqs
              ∧ ∀ r ∈ mkRows jobId
                  (⟨⟨[⟨"j1", 50, JobState.processing, 2, "second", -1⟩],
                    [⟨1, "j1", "https://x/a", "GET", none, none, none, none, none, none⟩],
                    2, some 5999⟩, true⟩ : EngineState).store.nextId reqs,
                  isPending r = true))) :=
  ⟨by decide,
    claim_c10_stuck_processing_flag (fun _ => Except.error "net down") (fun _ => 100)
      0 "boom" 999
      ⟨⟨[⟨"j1", 50, JobState.processing, 2, "second", -1⟩],
        [⟨1, "j1", "https://x/a", "GET", none, none, none, none, none, none⟩],
        2, some 123⟩, false⟩ "boom"
      ⟨⟨[⟨"j1", 50, JobState.processing, 2, "second", -1⟩],
        [⟨1, "j1", "https://x/a", "GET", none, none, none, none, none, none⟩],
        2, some 5999⟩, true⟩ (by decide)⟩

/-! ### Counting lemmas for job progress -/

theorem forall2_countP_le_mem {α : Type} {R : α → α → Prop} {l l' : List α}
    (h : List.Forall₂ R l l') (p q : α → Bool)
    (hpq : ∀ a b, a ∈ l → R a b → p a = true → q b = true) :
    l.countP p ≤ l'.countP q := by
  induction h with
  | nil => exact Nat.le_refl 0
  | @cons a b l1 l2 hab htl ih =>
    have ih' := ih (fun x y hx => hpq x y (List.mem_cons_of_mem a hx))
    by_cases hp : p a = true
    · have hq := hpq a b (List.mem_cons_self a l1) hab hp
      simp only [List.countP_cons, hp, hq, if_pos]
      omega
    · have hp' : p a = false := by
        cases hpv : p a
        · rfl
        · exact absurd hpv hp
      simp only [List.countP_cons, hp']
      simp only [Bool.false_eq_true, if_neg, if_false]
      have hb : (if q b = true then 1 else 0) + l2.countP q ≥ l2.countP q := by omega
      omega

theorem forall2_countP_eq_mem {α : Type} {R : α → α → Prop} {l l' : List α}
    (h : List.Forall₂ R l l') (p q : α → Bool)
    (hpq : ∀ a b, a ∈ l → R a b → p a = q b) :
    l.countP p = l'.countP q := by
  induction h with
  | nil => rfl
  | @cons a b l1 l2 hab htl ih =>
    have ih' := ih (fun x y hx => hpq x y (List.mem_cons_of_mem a hx))
    simp only [List.countP_cons, hpq a b (List.mem_cons_self a l1) hab, ih']

theorem statusCompleted_eq_countP (s : Store) (j : String) :
    statusCompleted s j = s.requests.countP (fun r => r.jobId == j && !(isPending r)) := by
  unfold statusCompleted
  rw [List.countP_eq_length_filter]

theorem totalCount_eq_countP (s : Store) (j : String) :
    totalCount s j = s.requests.countP (fun r => r.jobId == j) := by
  unfold totalCount
  rw [List.countP_eq_length_filter]

theorem totalCount_split (s : Store) (j : String) :
    s.requests.countP (pendingPred j) + statusCompleted s j = totalCount s j := by
  rw [statusCompleted_eq_countP, totalCount_eq_countP]
  have h := countP_and_split (fun r : RequestRow => r.jobId == j)
    (fun r => isPending r) s.requests
  calc s.requests.countP (pendingPred j)
        + s.requests.countP (fun r => r.jobId == j && !(isPending r))
      = s.requests.countP (fun r => r.jobId == j && isPending r)
        + s.requests.countP (fun r => r.jobId == j && !(isPending r)) := rfl
    _ = s.requests.countP (fun r => r.jobId == j) := h

theorem reqEvol_jobId (oracle : HttpOracle) {a b : RequestRow}
    (h : reqEvol oracle a b) : b.jobId = a.jobId := by
  rcases h with rfl | ⟨_, t, heq⟩
  · rfl
  · rw [heq]
    exact resolvedRow_jobId oracle t a

theorem reqsEvolve_totalCount (oracle : HttpOracle) {l l' : List RequestRow}
    (h : ReqsEvolve oracle l l') (j : String) :
    l'.countP (fun r => r.jobId == j) = l.countP (fun r => r.jobId == j) :=
  (forall2_countP_eq_mem h _ _ (fun a b _ hab => by rw [reqEvol_jobId oracle hab])).symm

theorem reqsEvolve_completed_mono (oracle : HttpOracle) {l l' : List RequestRow}
    (h : ReqsEvolve oracle l l') (j : String) :
    l.countP (fun r => r.jobId == j && !(isPending r))
      ≤ l'.countP (fun r => r.jobId == j && !(isPending r)) := by
  apply forall2_countP_le_mem h
  intro a b _ hab hp
  rcases hab with rfl | ⟨hpend, t, heq⟩
  · exact hp
  · rw [Bool.and_eq_true] at hp
    rw [hp.2.symm] at hpend
    simp at hpend

theorem pending_id_mem (s : Store) (j : String) (a : RequestRow)
    (ha : a ∈ s.requests) (hp : pendingPred j a = true) :
    a.id ∈ (pendingRequests s j).map RequestRow.id :=
  List.mem_map_of_mem RequestRow.id ((mem_pendingRequests s j a).mpr ⟨ha, hp⟩)

theorem pending_id_inv (s : Store) (j : String) (a : RequestRow)
    (hids : (s.requests.map RequestRow.id).Nodup) (ha : a ∈ s.requests)
    (hin : a.id ∈ (pendingRequests s j).map RequestRow.id) :
    pendingPred j a = true := by
  obtain ⟨q, hq, hqid⟩ := List.mem_map.mp hin
  have hqmem : q ∈ s.requests := pendingRequests_sub s j q hq
  have hqp : pendingPred j q = true := pendingRequests_pend s j q hq
  have hrq : q = a := List.inj_on_of_nodup_map hids hqmem ha hqid
  exact hrq ▸ hqp

theorem drainJob_no_pending (oracle : HttpOracle) (clock : Nat → Int) (s : Store)
    (job : JobRow) (i : Nat) (hids : (s.requests.map RequestRow.id).Nodup) :
    (drainJob oracle clock s job i).requests.countP (pendingPred job.jobId) = 0 := by
  rw [List.countP_eq_length_filter]
  rw [forall2_drainRel_filter_pending oracle job.jobId
    (drainJob_forall2 oracle clock s job i hids)]
  rw [List.length_eq_zero]
  rw [List.filter_eq_nil_iff]
  intro a ha
  by_cases hp : pendingPred job.jobId a = true
  · have hin := pending_id_mem s job.jobId a ha hp
    simp [hp, hin]
  · simp [hp]

theorem drainJob_exact (oracle : HttpOracle) (clock : Nat → Int) (s : Store)
    (job : JobRow) (i : Nat) (hids : (s.requests.map RequestRow.id).Nodup) :
    statusCompleted (drainJob oracle clock s job i) job.jobId
      = totalCount (drainJob oracle clock s job i) job.jobId := by
  have hsplit := totalCount_split (drainJob oracle clock s job i) job.jobId
  have hzero := drainJob_no_pending oracle clock s job i hids
  omega

theorem drainJob_counts_other (oracle : HttpOracle) (clock : Nat → Int) (s : Store)
    (job : JobRow) (i : Nat) (j0 : String) (hids : (s.requests.map RequestRow.id).Nodup)
    (hne : j0 ≠ job.jobId) :
    statusCompleted (drainJob oracle clock s job i) j0 = statusCompleted s j0 := by
  rw [statusCompleted_eq_countP, statusCompleted_eq_countP]
  refine (forall2_countP_eq_mem (drainJob_forall2 oracle clock s job i hids) _ _ ?_).symm
  intro a b ha hab
  unfold drainRel at hab
  by_cases hin : a.id ∈ (pendingRequests s job.jobId).map RequestRow.id
  · rw [if_pos hin] at hab
    obtain ⟨t, rfl⟩ := hab
    have hp := pending_id_inv s job.jobId a hids ha hin
    unfold pendingPred at hp
    rw [Bool.and_eq_true] at hp
    have haj : (a.jobId == j0) = false := by
      have : a.jobId = job.jobId := by simpa using hp.1
      simp [this, (Ne.symm hne)]
    have hbj : ((resolvedRow oracle t a).jobId == j0) = false := by
      rw [resolvedRow_jobId]
      exact haj
    simp [haj, hbj]
  · rw [if_neg hin] at hab
    rw [hab]

theorem drainRequests_jobs_shape (oracle : HttpOracle) (clock : Nat → Int)
    (jobId : String) (delay : Int) :
    ∀ (Q : List RequestRow) (s : Store) (i : Nat),
      (drainRequests oracle clock jobId delay s Q i).jobs.map
        (fun j => (j.jobId, j.jstatus))
      = s.jobs.map (fun j => (j.jobId, j.jstatus)) := by
  intro Q
  induction Q with
  | nil => intro s i; rfl
  | cons q rest ih =>
    intro s i
    simp only [drainRequests]
    rw [ih, processOne_jobs, List.map_map]
    apply List.map_congr_left
    intro j _
    simp only [Function.comp_apply]
    by_cases h : j.jobId = jobId
    · rw [if_pos h]
    · rw [if_neg h]

theorem completeJob_jobs_complete (s : Store) (jid : String) :
    ∀ jb ∈ (completeJob s jid).jobs, jb.jobId = jid →
      jb.jstatus = JobState.complete := by
  intro jb hjb hid
  unfold completeJob at hjb
  simp only [List.mem_map] at hjb
  obtain ⟨j0, _, heq⟩ := hjb
  by_cases h : j0.jobId = jid
  · rw [if_pos h] at heq
    rw [← heq]
  · rw [if_neg h] at heq
    rw [← heq] at hid
    exact absurd hid h

theorem drainJob_jobs_complete (oracle : HttpOracle) (clock : Nat → Int)
    (s : Store) (job : JobRow) (i : Nat) :
    ∀ jb ∈ (drainJob oracle clock s job i).jobs, jb.jobId = job.jobId →
      jb.jstatus = JobState.complete :=
  completeJob_jobs_complete _ job.jobId

theorem drainJob_jobs_origin (oracle : HttpOracle) (clock : Nat → Int)
    (s : Store) (job : JobRow) (i : Nat) :
    ∀ jb' ∈ (drainJob oracle clock s job i).jobs, jb'.jobId ≠ job.jobId →
      ∃ jb ∈ s.jobs, jb.jobId = jb'.jobId ∧ jb.jstatus = jb'.jstatus := by
  intro jb' hjb' hne
  unfold drainJob completeJob at hjb'
  simp only [List.mem_map] at hjb'
  obtain ⟨j2, hj2, heq⟩ := hjb'
  have hj2eq : jb' = j2 := by
    by_cases h : j2.jobId = job.jobId
    · rw [if_pos h] at heq
      rw [← heq] at hne
      exact absurd h hne
    · rw [if_neg h] at heq
      rw [heq]
  subst hj2eq
  have hshape := drainRequests_jobs_shape oracle clock job.jobId
    (calculateDelay job.rateLimit job.rateUnit) (pendingRequests s job.jobId) s i
  have hmem : (jb'.jobId, jb'.jstatus) ∈ s.jobs.map (fun j => (j.jobId, j.jstatus)) := by
    rw [← hshape]
    exact List.mem_map_of_mem _ hj2
  obtain ⟨jb, hjb, hjbeq⟩ := List.mem_map.mp hmem
  simp only [Prod.mk.injEq] at hjbeq
  exact ⟨jb, hjb, hjbeq.1, hjbeq.2⟩

theorem drainJob_completeInv (oracle : HttpOracle) (clock : Nat → Int) (s : Store)
    (job : JobRow) (i : Nat) (hWF : StoreWF s) (hInv : CompleteInv s) :
    CompleteInv (drainJob oracle clock s job i) := by
  intro j0 hj0 hcomp
  by_cases hjid : j0.jobId = job.jobId
  · rw [hjid]
    exact drainJob_exact oracle clock s job i (storeWF_ids_nodup hWF)
  · obtain ⟨jb, hjb, hjbid, hjbst⟩ := drainJob_jobs_origin oracle clock s job i j0 hj0 hjid
    have hjbcomp : jb.jstatus = JobState.complete := by rw [hjbst, hcomp]
    have hold := hInv jb hjb hjbcomp
    rw [hjbid] at hold
    rw [drainJob_counts_other oracle clock s job i j0.jobId
      (storeWF_ids_nodup hWF) hjid]
    have htot : totalCount (drainJob oracle clock s job i) j0.jobId
        = totalCount s j0.jobId := by
      rw [totalCount_eq_countP, totalCount_eq_countP]
      exact reqsEvolve_totalCount oracle
        (drainJob_reqsEvolve oracle clock s job i (storeWF_ids_nodup hWF)) j0.jobId
    rw [htot]
    exact hold

theorem resumeLoop_completeInv (oracle : HttpOracle) (clock : Nat → Int) :
    ∀ (fuel : Nat) (s : Store) (i : Nat), StoreWF s → CompleteInv s →
      CompleteInv (resumeLoop oracle clock fuel s i) := by
  intro fuel
  induction fuel with
  | zero => intro s i _ h; exact h
  | succ fuel ih =>
    intro s i hWF hInv
    simp only [resumeLoop]
    cases hq : nextQueuedJob s with
    | none => exact hInv
    | some job =>
      exact ih (drainJob oracle clock s job i) (i + (pendingRequests s job.jobId).length)
        (drainJob_WF oracle clock s job i hWF)
        (drainJob_completeInv oracle clock s job i hWF hInv)

theorem completeInv_alarm (s : Store) (a : Option Int) (h : CompleteInv s) :
    CompleteInv { s with alarm := a } := by
  intro j hj hc
  exact h j hj hc

theorem resumeProcessing_completeInv (oracle : HttpOracle) (clock : Nat → Int)
    (st : EngineState) (hWF : StoreWF st.store) (hInv : CompleteInv st.store) :
    CompleteInv (resumeProcessing oracle clock st).store := by
  unfold resumeProcessing
  by_cases hp : st.processing
  · rw [if_pos hp]
    exact hInv
  · rw [if_neg hp]
    exact completeInv_alarm _ none
      (resumeLoop_completeInv oracle clock _ st.store 0 hWF hInv)

theorem mkRows_countP_zero (jobId : String) (base : Nat) (cfgs : List RequestConfig)
    (p : RequestRow → Bool) (hp : ∀ r ∈ mkRows jobId base cfgs, p r = false) :
    (mkRows jobId base cfgs).countP p = 0 := by
  rw [List.countP_eq_zero]
  intro r hr
  rw [hp r hr]
  simp

theorem admitted_completeInv (s : Store) (jobId : String) (now : Int)
    (opts : RateLimitOptions) (reqs : List RequestConfig) (hInv : CompleteInv s)
    (hfresh : ∀ j ∈ s.jobs, j.jobId ≠ jobId) :
    CompleteInv (insertRequestRows (insertJobRow s jobId now opts) jobId reqs) := by
  intro j0 hj0 hcomp
  have hjobs : (insertRequestRows (insertJobRow s jobId now opts) jobId reqs).jobs
      = s.jobs ++ [⟨jobId, now, JobState.processing, opts.rateLimit, opts.unit, -1⟩] :=
    insertRows_jobIds s jobId now opts reqs
  rw [hjobs] at hj0
  rcases List.mem_append.mp hj0 with hj0 | hj0
  · have hne : j0.jobId ≠ jobId := hfresh j0 hj0
    have hmk0 : ∀ (p : RequestRow → Bool),
        (∀ r, r.jobId ≠ j0.jobId → p r = false) →
        (mkRows jobId s.nextId reqs).countP p = 0 := by
      intro p hp
      apply mkRows_countP_zero
      intro r hr
      exact hp r (by
        rw [(mkRows_pending jobId s.nextId reqs r hr).1]
        exact fun hc => hne hc.symm)
    rw [statusCompleted_eq_countP, totalCount_eq_countP, admitted_requests,
      List.countP_append, List.countP_append]
    rw [hmk0 _ (fun r hr => by simp [hr]), hmk0 _ (fun r hr => by simp [hr])]
    rw [← statusCompleted_eq_countP, ← totalCount_eq_countP]
    simp only [Nat.add_zero]
    exact hInv j0 hj0 hcomp
  · rw [List.mem_singleton] at hj0
    rw [hj0] at hcomp
    cases hcomp

/-- C5: job status is monotonic — the identity and configuration columns of
every job row are frozen and `complete` never reverts to `processing` under
either engine operation; the resolved-request count is non-decreasing and
the total is preserved by the Draining loop; draining a job marks exactly
that job complete at the moment all of its requests are resolved
(resolved count = total), and a complete job always has resolved count
equal to total. -/
theorem claim_c5_status_monotonic (oracle : HttpOracle) (clock : Nat → Int)
    (st : EngineState) (hWF : StoreWF st.store) (hInv : CompleteInv st.store) :
    (JobsEvolve st.store.jobs (resumeProcessing oracle clock st).store.jobs
      ∧ CompleteInv (resumeProcessing oracle clock st).store
      ∧ (∀ j, statusCompleted st.store j
          ≤ statusCompleted (resumeProcessing oracle clock st).store j)
      ∧ (∀ j, totalCount (resumeProcessing oracle clock st).store j
          = totalCount st.store j))
    ∧ (∀ job i,
        statusCompleted (drainJob oracle clock st.store job i) job.jobId
          = totalCount (drainJob oracle clock st.store job i) job.jobId
        ∧ ∀ jb ∈ (drainJob oracle clock st.store job i).jobs,
            jb.jobId = job.jobId → jb.jstatus = JobState.complete)
    ∧ (∀ now jobId reqs opts st2 res,
        schedule oracle clock now st jobId reqs opts = Except.ok (st2, res) →
        CompleteInv st2.store
        ∧ ∀ j, statusCompleted st.store j ≤ statusCompleted st2.store j) := by
  have hev := resumeProcessing_reqsEvolve oracle clock st hWF
  refine ⟨⟨resumeProcessing_jobs_evolve oracle clock st,
      resumeProcessing_completeInv oracle clock st hWF hInv, ?_, ?_⟩, ?_, ?_⟩
  · intro j
    rw [statusCompleted_eq_countP, statusCompleted_eq_countP]
    exact reqsEvolve_completed_mono oracle hev j
  · intro j
    rw [totalCount_eq_countP, totalCount_eq_countP]
    exact reqsEvolve_totalCount oracle hev j
  · intro job i
    exact ⟨drainJob_exact oracle clock st.store job i (storeWF_ids_nodup hWF),
      drainJob_jobs_complete oracle clock st.store job i⟩
  · intro now jobId reqs opts st2 res hok
    have hval : validateSchedule reqs opts = none := by
      cases hv : validateSchedule reqs opts with
      | none => rfl
      | some m => unfold schedule at hok; rw [hv] at hok; cases hok
    by_cases hex : st.store.jobs.any (fun j => j.jobId == jobId) = true
    · rw [schedule_resuming_eq oracle clock now st jobId reqs opts hval hex] at hok
      cases hok
      exact ⟨hInv, fun j => Nat.le_refl _⟩
    · have hnew : st.store.jobs.any (fun j => j.jobId == jobId) = false := by
        simpa using hex
      have hfresh := jobs_any_false st.store.jobs jobId hnew
      rw [schedule_new_eq oracle clock now st jobId reqs opts hval hnew] at hok
      cases hok
      have hWF1 := admitted_WF st.store jobId now opts reqs hWF hfresh
      have hInv1 := admitted_completeInv st.store jobId now opts reqs hInv hfresh
      have hmono1 : ∀ j, statusCompleted st.store j ≤ statusCompleted
          (insertRequestRows (insertJobRow st.store jobId now opts) jobId reqs) j := by
        intro j
        rw [statusCompleted_eq_countP, statusCompleted_eq_countP, admitted_requests,
          List.countP_append]
        omega
      by_cases hp : st.processing
      · rw [if_pos hp]
        exact ⟨hInv1, hmono1⟩
      · rw [if_neg hp]
        have hev1 := resumeProcessing_reqsEvolve oracle clock
          ⟨insertRequestRows (insertJobRow st.store jobId now opts) jobId reqs,
            st.processing⟩ hWF1
        refine ⟨resumeProcessing_completeInv oracle clock _ hWF1 hInv1, ?_⟩
        intro j
        refine Nat.le_trans (hmono1 j) ?_
        rw [statusCompleted_eq_countP, statusCompleted_eq_countP]
        exact reqsEvolve_completed_mono oracle hev1 j

theorem claim_c5_status_monotonic_witness :
    (StoreWF (⟨[⟨"j1", 5, JobState.processing, 2, "second", -1⟩],
        [⟨1, "j1", "https://x/a", "GET", none, none, none, none, none, none⟩],
        2, none⟩ : Store)
      ∧ CompleteInv (⟨[⟨"j1", 5, JobState.processing, 2, "second", -1⟩],
        [⟨1, "j1", "https://x/a", "GET", none, none, none, none, none, none⟩],
        2, none⟩ : Store))
    ∧ JobsEvolve (⟨⟨[⟨"j1", 5, JobState.processing, 2, "second", -1⟩],
        [⟨1, "j1", "https://x/a", "GET", none, none, none, none, none, none⟩],
        2, none⟩, true⟩ : EngineState).store.jobs
      (resumeProcessing (fun _ => Except.error "net down") (fun _ => 7)
        ⟨⟨[⟨"j1", 5, JobState.processing, 2, "second", -1⟩],
          [⟨1, "j1", "https://x/a", "GET", none, none, none, none, none, none⟩],
          2, none⟩, true⟩).store.jobs := by
  refine ⟨⟨by decide, by decide⟩, ?_⟩
  exact (claim_c5_status_monotonic (fun _ => Except.error "net down") (fun _ => 7)
    ⟨⟨[⟨"j1", 5, JobState.processing, 2, "second", -1⟩],
      [⟨1, "j1", "https://x/a", "GET", none, none, none, none, none, none⟩],
      2, none⟩, true⟩ (by decide) (by decide)).1.1

/-! ### Crash-and-resume equivalence -/

theorem forall2_map_pointwise {α β : Type} {R : α → α → Prop} {l l' : List α}
    (h : List.Forall₂ R l l') (g h' : α → β)
    (hgh : ∀ a b, R a b → g b = h' a) : l'.map g = l.map h' := by
  induction h with
  | nil => rfl
  | @cons a b l1 l2 hab htl ih => simp only [List.map_cons, hgh a b hab, ih]

theorem filter_not_take_mem {α β : Type} [DecidableEq β] (f : α → β)
    (l : List α) (k : Nat) (h : (l.map f).Nodup) :
    l.filter (fun x => !(decide (f x ∈ (l.take k).map f))) = l.drop k := by
  have hsplit : (l.map f) = ((l.take k).map f) ++ ((l.drop k).map f) := by
    rw [← List.map_append, List.take_append_drop]
  have hdisj : ((l.take k).map f).Disjoint ((l.drop k).map f) := by
    rw [hsplit] at h
    exact List.disjoint_of_nodup_append h
  have htake : (l.take k).filter (fun x => !(decide (f x ∈ (l.take k).map f))) = [] := by
    rw [List.filter_eq_nil_iff]
    intro x hx
    simp only [Bool.not_eq_true', decide_eq_false_iff_not, not_not]
    exact List.mem_map_of_mem f hx
  have hdrop : (l.drop k).filter (fun x => !(decide (f x ∈ (l.take k).map f)))
      = l.drop k := by
    rw [List.filter_eq_self]
    intro x hx
    simp only [Bool.not_eq_true', decide_eq_false_iff_not]
    intro hc
    exact hdisj hc (List.mem_map_of_mem f hx)
  calc l.filter (fun x => !(decide (f x ∈ (l.take k).map f)))
      = (l.take k ++ l.drop k).filter (fun x => !(decide (f x ∈ (l.take k).map f))) := by
        rw [List.take_append_drop]
    _ = [] ++ (l.drop k) := by rw [List.filter_append, htake, hdrop]
    _ = l.drop k := by rw [List.nil_append]

theorem drainTake_forall2 (oracle : HttpOracle) (clock : Nat → Int) (s : Store)
    (jobId : String) (delay : Int) (k i : Nat)
    (hids : (s.requests.map RequestRow.id).Nodup) :
    List.Forall₂
      (drainRel oracle (((pendingRequests s jobId).take k).map RequestRow.id))
      s.requests
      (drainRequests oracle clock jobId delay s
        ((pendingRequests s jobId).take k) i).requests := by
  have hsub : ((pendingRequests s jobId).take k).Sublist (pendingRequests s jobId) :=
    List.take_sublist k (pendingRequests s jobId)
  exact drainRequests_forall2 oracle clock jobId delay
    ((pendingRequests s jobId).take k) s i hids
    (fun q hq => pendingRequests_sub s jobId q (hsub.mem hq))
    ((pendingRequests_ids_nodup s jobId hids).sublist (hsub.map RequestRow.id))

theorem pendingRequests_after_take (oracle : HttpOracle) (clock : Nat → Int)
    (s : Store) (jobId : String) (delay : Int) (k i : Nat) (hWF : StoreWF s) :
    pendingRequests
      (drainRequests oracle clock jobId delay s
        ((pendingRequests s jobId).take k) i) jobId
      = (pendingRequests s jobId).drop k := by
  have hids := storeWF_ids_nodup hWF
  have hPid : ((pendingRequests s jobId).map RequestRow.id).Nodup :=
    pendingRequests_ids_nodup s jobId hids
  have hfilter := forall2_drainRel_filter_pending oracle jobId
    (drainTake_forall2 oracle clock s jobId delay k i hids)
  have hPfilter : s.requests.filter (pendingPred jobId) = pendingRequests s jobId :=
    (pendingRequests_eq_filter s jobId hWF.1).symm
  have hstep : s.requests.filter (fun r => pendingPred jobId r
        && !(decide (r.id ∈ ((pendingRequests s jobId).take k).map RequestRow.id)))
      = (pendingRequests s jobId).filter (fun r =>
          !(decide (r.id ∈ ((pendingRequests s jobId).take k).map RequestRow.id))) := by
    rw [← hPfilter, List.filter_filter]
    apply List.filter_congr
    intro r _
    rw [Bool.and_comm]
  show List.insertionSort leId
      ((drainRequests oracle clock jobId delay s
        ((pendingRequests s jobId).take k) i).requests.filter (pendingPred jobId))
    = (pendingRequests s jobId).drop k
  rw [hfilter, hstep, filter_not_take_mem RequestRow.id (pendingRequests s jobId) k hPid]
  exact List.Sorted.insertionSort_eq
    ((pendingRequests_sorted s jobId).sublist
      (List.drop_sublist k (pendingRequests s jobId)))

theorem drain_resume_outcomes (oracle : HttpOracle) (clock clock2 : Nat → Int)
    (s : Store) (jb : JobRow) (k i1 i2 : Nat) (hWF : StoreWF s) :
    (drainJob oracle clock2
      (drainRequests oracle clock jb.jobId (calculateDelay jb.rateLimit jb.rateUnit)
        s ((pendingRequests s jb.jobId).take k) i1) jb i2).requests.map outcomeProj
    = (drainJob oracle clock s jb i1).requests.map outcomeProj := by
  set P := pendingRequests s jb.jobId with hPdef
  set d := calculateDelay jb.rateLimit jb.rateUnit with hddef
  set sMid := drainRequests oracle clock jb.jobId d s (P.take k) i1 with hsMiddef
  have hids := storeWF_ids_nodup hWF
  have hPid : (P.map RequestRow.id).Nodup := pendingRequests_ids_nodup s jb.jobId hids
  have hsplitIds : P.map RequestRow.id
      = (P.take k).map RequestRow.id ++ (P.drop k).map RequestRow.id := by
    rw [← List.map_append, List.take_append_drop]
  have hdisj : ((P.take k).map RequestRow.id).Disjoint ((P.drop k).map RequestRow.id) := by
    have h2 := hPid
    rw [hsplitIds] at h2
    exact List.disjoint_of_nodup_append h2
  have hF := forall2_drainRel_proj oracle (drainJob_forall2 oracle clock s jb i1 hids)
  have hmid := drainTake_forall2 oracle clock s jb.jobId d k i1 hids
  have hidsMid : (sMid.requests.map RequestRow.id).Nodup := by
    rw [forall2_drainRel_ids oracle hmid]
    exact hids
  have hpend : pendingRequests sMid jb.jobId = P.drop k :=
    pendingRequests_after_take oracle clock s jb.jobId d k i1 hWF
  have hR0 := drainJob_forall2 oracle clock2 sMid jb i2 hidsMid
  rw [hpend] at hR0
  have hR := forall2_drainRel_proj oracle hR0
  have hcomp := forall2_map_pointwise hmid
    (fun r => if r.id ∈ (P.drop k).map RequestRow.id
      then outcomeProj (resolvedRow oracle 0 r) else outcomeProj r)
    (fun r => if r.id ∈ (P.take k).map RequestRow.id
      then outcomeProj (resolvedRow oracle 0 r)
      else if r.id ∈ (P.drop k).map RequestRow.id
        then outcomeProj (resolvedRow oracle 0 r) else outcomeProj r)
    (by
      intro a b hab
      dsimp only
      unfold drainRel at hab
      by_cases hin : a.id ∈ (P.take k).map RequestRow.id
      · rw [if_pos hin] at hab
        obtain ⟨t, rfl⟩ := hab
        rw [if_pos hin]
        have hnd : a.id ∉ (P.drop k).map RequestRow.id := fun hc => hdisj hin hc
        rw [resolvedRow_id, if_neg hnd]
        exact outcomeProj_resolvedRow oracle t 0 a
      · rw [if_neg hin] at hab
        rw [hab, if_neg hin])
  have hcongr : s.requests.map
      (fun r => if r.id ∈ (P.take k).map RequestRow.id
        then outcomeProj (resolvedRow oracle 0 r)
        else if r.id ∈ (P.drop k).map RequestRow.id
          then outcomeProj (resolvedRow oracle 0 r) else outcomeProj r)
    = s.requests.map
      (fun r => if r.id ∈ P.map RequestRow.id
        then outcomeProj (resolvedRow oracle 0 r) else outcomeProj r) := by
    apply List.map_congr_left
    intro r _
    have hmem : r.id ∈ P.map RequestRow.id ↔
        r.id ∈ (P.take k).map RequestRow.id ∨ r.id ∈ (P.drop k).map RequestRow.id := by
      rw [hsplitIds]
      exact List.mem_append
    by_cases h1 : r.id ∈ (P.take k).map RequestRow.id
    · rw [if_pos h1, if_pos (hmem.mpr (Or.inl h1))]
    · rw [if_neg h1]
      by_cases h2 : r.id ∈ (P.drop k).map RequestRow.id
      · rw [if_pos h2, if_pos (hmem.mpr (Or.inr h2))]
      · rw [if_neg h2, if_neg (fun hc => (hmem.mp hc).elim h1 h2)]
  rw [hR, hcomp, hcongr, ← hF]

/-- C1: the pending-requests query returns exactly the job's request rows
whose `status` and `error` are both NULL, in ascending id order; draining
the first `k` of them (an interrupted run) leaves exactly the remaining
pending requests to a re-entered loop, and the resumed run produces the
same resolved outcomes (id, job, status, responseData, error of every row)
as an uninterrupted run. -/
theorem claim_c1_resumable_draining (oracle : HttpOracle) (clock clock2 : Nat → Int)
    (s : Store) (jb : JobRow) (k i1 i2 : Nat) (hWF : StoreWF s) :
    (∀ r, r ∈ pendingRequests s jb.jobId ↔
        (r ∈ s.requests ∧ r.jobId = jb.jobId ∧ r.status = none ∧ r.error = none))
    ∧ List.Sorted leId (pendingRequests s jb.jobId)
    ∧ pendingRequests
        (drainRequests oracle clock jb.jobId
          (calculateDelay jb.rateLimit jb.rateUnit) s
          ((pendingRequests s jb.jobId).take k) i1) jb.jobId
      = (pendingRequests s jb.jobId).drop k
    ∧ (drainJob oracle clock2
        (drainRequests oracle clock jb.jobId
          (calculateDelay jb.rateLimit jb.rateUnit) s
          ((pendingRequests s jb.jobId).take k) i1) jb i2).requests.map outcomeProj
      = (drainJob oracle clock s jb i1).requests.map outcomeProj := by
  refine ⟨?_, pendingRequests_sorted s jb.jobId,
    pendingRequests_after_take oracle clock s jb.jobId
      (calculateDelay jb.rateLimit jb.rateUnit) k i1 hWF,
    drain_resume_outcomes oracle clock clock2 s jb k i1 i2 hWF⟩
  intro r
  rw [mem_pendingRequests]
  unfold pendingPred isPending
  simp only [Bool.and_eq_true, beq_iff_eq, Option.isNone_iff_eq_none, and_assoc]

theorem claim_c1_resumable_draining_witness :
    StoreWF (⟨[⟨"j1", 5, JobState.processing, 1000, "second", -1⟩],
        [⟨1, "j1", "https://x/a", "GET", none, none, none, none, none, none⟩,
         ⟨2, "j1", "https://x/b", "GET", none, none, none, none, none, none⟩],
        3, none⟩ : Store)
    ∧ (∀ r, r ∈ pendingRequests
          ⟨[⟨"j1", 5, JobState.processing, 1000, "second", -1⟩],
            [⟨1, "j1", "https://x/a", "GET", none, none, none, none, none, none⟩,
             ⟨2, "j1", "https://x/b", "GET", none, none, none, none, none, none⟩],
            3, none⟩
          (⟨"j1", 5, JobState.processing, 1000, "second", -1⟩ : JobRow).jobId ↔
        (r ∈ (⟨[⟨"j1", 5, JobState.processing, 1000, "second", -1⟩],
            [⟨1, "j1", "https://x/a", "GET", none, none, none, none, none, none⟩,
             ⟨2, "j1", "https://x/b", "GET", none, none, none, none, none, none⟩],
            3, none⟩ : Store).requests
          ∧ r.jobId = (⟨"j1", 5, JobState.processing, 1000, "second", -1⟩ : JobRow).jobId
          ∧ r.status = none ∧ r.error = none)) := by
  refine ⟨by decide, ?_⟩
  exact (claim_c1_resumable_draining (fun _ => Except.error "net down")
    (fun _ => 8) (fun _ => 9)
    ⟨[⟨"j1", 5, JobState.processing, 1000, "second", -1⟩],
      [⟨1, "j1", "https://x/a", "GET", none, none, none, none, none, none⟩,
       ⟨2, "j1", "https://x/b", "GET", none, none, none, none, none, none⟩],
      3, none⟩ ⟨"j1", 5, JobState.processing, 1000, "second", -1⟩ 1 0 1
    (by decide)).1
